import Mathlib

/-!
Verification development for the graph-data-experiment backend.

The embedding models, directly from the source files:
  * `models.py` — the `document_hist`, `document_event`, `user_info` and
    `snapshot` relations, their unique indexes and foreign keys;
  * `alembic/versions/b29522cb896e_.py` — the storage-level triggers
    `check_parent_published` (immediate, at statement time) and
    `check_document_cycle` (deferred, at transaction commit), and the
    unique indexes `parent_hist_index` / `null_hist_index`;
  * `server/gd.py` — the `post_document`, `get_graph`, `post_handler`
    (authentication), `get_handler` (token refresh) and
    `post_snapshot_batch` HTTP handlers, together with `authenticate`;
  * `server/jweconv.py` — the `JWEConverter.encrypt` / `decrypt` token codec;
  * `jweauth.py` — the `SanicJWEAuth` session logic, specialised to the
    configuration used in `server/gd.py`;
  * `server/ldapauth.py` — the identity-provider outcome taxonomy.

PostgreSQL specifics reflected in the model: unique-index violations are
raised while the row is inserted, before the referential-integrity checks,
which in turn run before the user-defined immediate constraint trigger;
a unique index treats NULLs as distinct, which is why `parent_hist_index`
does not deduplicate null-parent rows and `null_hist_index` exists;
in PL/pgSQL an `IF` over a NULL boolean does not take the branch.
Machine identifiers (`gen_random_uuid`) are modelled by a fresh-id counter.
-/

/-- JSON scalar values, as far as the handlers inspect them
(`isinstance` checks in `post_document`, claim values in tokens,
snapshot payloads compared for equality). -/
inductive JVal
  | null
  | str (s : String)
  | num (n : Int)
  | bool (b : Bool)
deriving DecidableEq, Repr

/-- A row of `document_hist` (models.py:21 and migration b29522cb896e).
`published` and `deleted` are nullable booleans with server default
`false`; `tstamp` lost its server default in the migration, so rows
inserted by `post_document` carry a NULL timestamp. -/
structure HistNode where
  hid : Nat
  pid : String
  title : String
  metadata : List (String × JVal) := []
  published : Option Bool := some false
  deleted : Option Bool := some false
  tstamp : Option Int := none
deriving DecidableEq, Repr

/-- A row of `document_event` (models.py:31): a provenance edge from the
nullable `parent` node to the `hist` node. -/
structure EventEdge where
  parent : Option Nat
  hist : Nat
  uid : String
  reason : String
  comment : Option String := none
  tstamp : Int
deriving DecidableEq, Repr

/-- The transactional storage state owned by the document graph store:
the `document_hist` and `document_event` relations, the `user_info`
primary keys, and the generator for fresh `gen_random_uuid` identifiers. -/
structure DB where
  hists : List HistNode
  events : List EventEdge
  users : List String
  nextId : Nat
deriving DecidableEq, Repr

/-- Storage-level errors, named after the error taxonomy the API maps the
PostgreSQL failures to: `duplicateEdge` is a unique-index violation on
`parent_hist_index`/`null_hist_index`, `parentUnpublished` the
`unpublished_parent` RAISE, `parentCycle` the `parent_cycle` RAISE. -/
inductive DBError
  | duplicateEdge
  | foreignKeyViolation
  | parentUnpublished
  | parentCycle
deriving DecidableEq, Repr

/-- `SELECT * FROM document_hist WHERE hid = h` (first row). -/
def lookupHist (db : DB) (h : Nat) : Option HistNode :=
  db.hists.find? (fun nd => nd.hid == h)

/-- Whether a `document_hist` row with the given id exists. -/
def histExistsB (db : DB) (h : Nat) : Bool :=
  db.hists.any (fun nd => nd.hid == h)

/-- Foreign-key check for the nullable `parent` column of `document_event`. -/
def parentExistsB (db : DB) (e : EventEdge) : Bool :=
  match e.parent with
  | some p => histExistsB db p
  | none => true

/-- The unique index `parent_hist_index` on (`parent`, `hist`)
(models.py:53).  A PostgreSQL unique index treats NULLs as distinct, so
only rows whose parent is non-null can conflict on it. -/
def violatesParentHistIndex (events : List EventEdge) (e : EventEdge) : Bool :=
  e.parent.isSome && events.any (fun e2 => e2.parent == e.parent && e2.hist == e.hist)

/-- The partial unique index `null_hist_index` on `hist` where
`parent IS NULL` (models.py:58): at most one root-creation edge per node. -/
def violatesNullHistIndex (events : List EventEdge) (e : EventEdge) : Bool :=
  e.parent.isNone && events.any (fun e2 => e2.parent.isNone && e2.hist == e.hist)

/-- The immediate constraint trigger `check_parent_published`
(migration b29522cb896e, lines 29-42 and 71-78): it raises
`unpublished_parent` exactly when `SELECT published FROM document_hist
WHERE hid = NEW.parent` yields `false`.  When `NEW.parent` is NULL, or the
row is absent, or its `published` column is NULL, the subquery yields NULL
and the PL/pgSQL `IF NOT NULL` does not raise. -/
def check_parent_published (db : DB) (e : EventEdge) : Bool :=
  match e.parent with
  | none => false
  | some p =>
    match lookupHist db p with
    | none => false
    | some nd => nd.published == some false

/-- The set of non-null `parent` values occurring in an edge list. -/
def parentsOf (events : List EventEdge) : Finset Nat :=
  (events.filterMap (fun e => e.parent)).toFinset

/-- One unfolding of the recursive CTE in `check_document_cycle`
(migration b29522cb896e, lines 43-62):
`SELECT e.parent FROM all_events ae, document_event e WHERE e.hist = ae.parent`
joined by UNION with the rows found so far.  The join on `e.hist = ae.parent`
never matches a NULL member, so the computation lives over bare ids. -/
def ancStep (events : List EventEdge) (s : Finset Nat) : Finset Nat :=
  s ∪ (events.filterMap (fun e => if e.hist ∈ s then e.parent else none)).toFinset

/-- The fixed point of the recursive CTE `all_events`, seeded with
`NEW.parent`: the ancestors of `p` (itself included) along the
child-to-parent direction.  The iteration count is large enough to reach
the fixed point the SQL recursion computes (proved below). -/
def ancestors (events : List EventEdge) (p : Nat) : Finset Nat :=
  (ancStep events)^[events.length + 2] {p}

/-- The deferred constraint trigger `check_document_cycle`: raises
`parent_cycle` exactly when `NEW.hist` is among the ancestors of
`NEW.parent`.  `NEW.hist IN (...)` is never true when `NEW.parent` is
NULL (the seed row is NULL and `x IN (NULL)` is not true in SQL). -/
def check_document_cycle (events : List EventEdge) (e : EventEdge) : Bool :=
  match e.parent with
  | none => false
  | some p => decide (e.hist ∈ ancestors events p)

/-- An `INSERT INTO document_event` statement: the checks that run at
statement time, in the order PostgreSQL runs them — unique indexes while
the row is inserted, then the foreign keys, then the immediate
`check_parent_published` trigger.  The deferred cycle trigger is queued
for commit and does not run here. -/
def stmtInsertEdge (db : DB) (e : EventEdge) : Except DBError DB :=
  if violatesParentHistIndex db.events e then .error .duplicateEdge
  else if violatesNullHistIndex db.events e then .error .duplicateEdge
  else if !histExistsB db e.hist then .error .foreignKeyViolation
  else if !parentExistsB db e then .error .foreignKeyViolation
  else if !db.users.contains e.uid then .error .foreignKeyViolation
  else if check_parent_published db e then .error .parentUnpublished
  else .ok { db with events := db.events ++ [e] }

/-- The statement phase of a transaction inserting a list of edges. -/
def runEdgeStmts : DB → List EventEdge → Except DBError DB
  | db, [] => .ok db
  | db, e :: rest =>
    match stmtInsertEdge db e with
    | .error err => .error err
    | .ok db2 => runEdgeStmts db2 rest

/-- A transaction that inserts the given edges and commits: the deferred
`check_document_cycle` trigger fires at commit once per inserted row,
over the full edge set as of commit. -/
def commitEdgeTxn (db : DB) (es : List EventEdge) : Except DBError DB :=
  match runEdgeStmts db es with
  | .error err => .error err
  | .ok db2 =>
    if es.any (fun e => check_document_cycle db2.events e) then .error .parentCycle
    else .ok db2

/-- The single-edge insert route (`post_edge_event` in server/gd.py:295),
as one transaction. -/
def post_edge_event (db : DB) (e : EventEdge) : Except DBError DB :=
  commitEdgeTxn db [e]

/-- The request body of `POST /document` as the handler inspects it. -/
structure DocPayload where
  pid : Option JVal := none
  title : Option JVal := none
  published : Option JVal := none
deriving DecidableEq, Repr

/-- API-level errors of `post_document` (server/gd.py:127). -/
inductive ApiError
  | needPidString
  | needTitleString
  | invalidPublishedType
  | dbErr (e : DBError)
deriving DecidableEq, Repr

/-- The transaction body of `post_document` (server/gd.py:136-147): insert
the `document_hist` row (server-generated id, NULL timestamp), then the
`document_event` row with `reason` `insert` for a null parent and `update`
otherwise, then commit (running the deferred cycle trigger). -/
def post_document_txn (db : DB) (uid : String) (now : Int) (parent : Option Nat)
    (pidStr titleStr : String) (pb : Bool) : Except ApiError (DB × Nat) :=
  let node : HistNode :=
    { hid := db.nextId, pid := pidStr, title := titleStr, metadata := [],
      published := some pb, deleted := some false, tstamp := none }
  let db1 : DB := { db with hists := db.hists ++ [node], nextId := db.nextId + 1 }
  let edge : EventEdge :=
    { parent := parent, hist := node.hid, uid := uid,
      reason := if parent.isNone then "insert" else "update",
      comment := none, tstamp := now }
  match stmtInsertEdge db1 edge with
  | .error err => .error (.dbErr err)
  | .ok db2 =>
    if check_document_cycle db2.events edge then .error (.dbErr .parentCycle)
    else .ok (db2, node.hid)

/-- The `POST /document` handler (server/gd.py:127): validation of `pid`,
`title` and `published` in the order of the source, then the transaction. -/
def post_document (db : DB) (uid : String) (now : Int) (parent : Option Nat)
    (payload : DocPayload) : Except ApiError (DB × Nat) :=
  match payload.pid with
  | some (JVal.str pidStr) =>
    (match payload.title with
     | some (JVal.str titleStr) =>
       (match payload.published with
        | some (JVal.bool pb) => post_document_txn db uid now parent pidStr titleStr pb
        | some _ => .error .invalidPublishedType
        | none => post_document_txn db uid now parent pidStr titleStr false)
     | _ => .error .needTitleString)
  | _ => .error .needPidString

/-- The join condition of the recursive CTE in `get_graph`
(server/gd.py:163-169): a candidate edge `evt` is adjacent to an already
found edge `ref` when `evt.parent = ref.hist` or `evt.hist = ref.parent`
(SQL equality, never satisfied by a NULL parent). -/
def edgeAdj (ref evt : EventEdge) : Bool :=
  evt.parent == some ref.hist || ref.parent == some evt.hist

/-- One unfolding of the `get_graph` recursive CTE: the rows found so far
joined by UNION with every `document_event` row adjacent to one of them. -/
def gStep (events : List EventEdge) (s : Finset EventEdge) : Finset EventEdge :=
  s ∪ (events.filter (fun evt => decide (∃ ref ∈ s, edgeAdj ref evt = true))).toFinset

/-- The edge set returned by `get_graph` (server/gd.py:157): the fixed
point of the recursive CTE seeded with the edges whose `hist` is the
requested id. -/
def get_graph_edges (events : List EventEdge) (hid : Nat) : Finset EventEdge :=
  (gStep events)^[events.length + 1] ((events.filter (fun e => e.hist == hid)).toFinset)

/-- The node set returned by `get_graph` (server/gd.py:174-176): the
`document_hist` rows whose `hid` occurs as the `hist` of a returned edge. -/
def get_graph_nodes (db : DB) (hid : Nat) : List HistNode :=
  db.hists.filter (fun nd => decide (∃ e ∈ get_graph_edges db.events hid, e.hist = nd.hid))

/-- The edge relation of the stored graph, in provenance direction:
`childStep events a b` holds when some edge records a transition from
parent `a` to child `b`. -/
def childStep (events : List EventEdge) (a b : Nat) : Prop :=
  ∃ e ∈ events, e.parent = some a ∧ e.hist = b

/-- Acyclicity of the stored edge set: no node reaches itself through a
non-empty chain of provenance edges. -/
def Acyclic (events : List EventEdge) : Prop :=
  ∀ x, ¬ Relation.TransGen (childStep events) x x

/-- Edge uniqueness as stored: no two `document_event` rows agree on the
(`parent`, `hist`) pair — for non-null parents this is
`parent_hist_index`; for null parents it follows from `null_hist_index`. -/
def UniqueEdges (events : List EventEdge) : Prop :=
  events.Pairwise (fun e1 e2 => ¬(e1.parent = e2.parent ∧ e1.hist = e2.hist))

/-- Id freshness of the generator: every stored node id was produced
before the next one to be generated. -/
def idsFreshB (db : DB) : Bool :=
  db.hists.all (fun nd => nd.hid < db.nextId)

/-- The foreign keys of `document_event` into `document_hist`, as an
invariant of the stored state. -/
def eventsFKB (db : DB) : Bool :=
  db.events.all (fun e => histExistsB db e.hist && parentExistsB db e)

/-- The claims mapping carried by a session token.  The fields are the
claim keys the system reads: the required `sub`, `exp`, `nbf` claims, the
password claim `p` and the session claims `r`, `n` of the `server/gd.py`
configuration.  A field value `none` means the key is absent from the
JSON mapping; `some JVal.null` means it is present with a null value.
`exp` and `nbf` are kept numeric, as `encrypt` always writes them. -/
structure ClaimsMap where
  sub : Option JVal := none
  p : Option JVal := none
  r : Option JVal := none
  n : Option JVal := none
  exp : Option Int := none
  nbf : Option Int := none
deriving DecidableEq, Repr

/-- A presented token string, by how `JWEConverter.decrypt` classifies it:
not a headerless JWE at all, a JWE whose plaintext is not JSON, or a JWE
whose plaintext is the given claims mapping. -/
inductive Token
  | invalid
  | notJson
  | payload (c : ClaimsMap)
deriving DecidableEq, Repr

/-- The failure taxonomy of `JWEConverter.decrypt` (server/jweconv.py:8). -/
inductive DecryptError
  | jweInvalid
  | jweWithoutJSON
  | jweMissingClaim (key : String)
  | jweExpired
  | jweNotYetValid
deriving DecidableEq, Repr

/-- Python `nbf or now` (server/jweconv.py:71): `None` and `0` are falsy. -/
def pyOrInt (nbf : Option Int) (now : Int) : Int :=
  match nbf with
  | none => now
  | some v => if v = 0 then now else v

namespace JWEConverter

/-- `JWEConverter.encrypt` (server/jweconv.py:47): the stored payload is
the mapping with default claims `exp = now + exp_delta`, `nbf = nbf or
now`, `sub = sub` (JSON null when the parameter is absent), overridden by
any claims the caller supplies under the same keys. -/
def encrypt (claims : ClaimsMap) (now : Int) (exp_delta : Int)
    (nbf : Option Int) (sub : Option JVal) : ClaimsMap :=
  { sub := some (claims.sub.getD (sub.getD JVal.null))
    p := claims.p
    r := claims.r
    n := claims.n
    exp := some (claims.exp.getD (now + exp_delta))
    nbf := some (claims.nbf.getD (pyOrInt nbf now)) }

/-- `JWEConverter.decrypt` (server/jweconv.py:84): deserialize and decrypt,
require the `sub`, `exp`, `nbf` claims in that order, then fail with
`jweExpired` when `check_exp` is set and `now` is past the `exp` claim,
then with `jweNotYetValid` when `now` is before the `nbf` claim. -/
def decrypt (tok : Token) (now : Int) (check_exp : Bool) :
    Except DecryptError ClaimsMap :=
  match tok with
  | .invalid => .error .jweInvalid
  | .notJson => .error .jweWithoutJSON
  | .payload c =>
    if c.sub.isNone then .error (.jweMissingClaim "sub")
    else if c.exp.isNone then .error (.jweMissingClaim "exp")
    else if c.nbf.isNone then .error (.jweMissingClaim "nbf")
    else if check_exp && decide (c.exp.getD 0 < now) then .error .jweExpired
    else if decide (now < c.nbf.getD 0) then .error .jweNotYetValid
    else .ok c

end JWEConverter

/-- The outcome of `LDAPAuth.authenticate` (server/ldapauth.py:116): the
user entry (its `cn`), or one of the failure exceptions —
`LDAPUserNotFound`, `LDAPInvalidCredentials` (wrong user password), or
`LDAPInvalidAdminCredentials` standing for the admin-bind/connectivity
failures that are not subclasses of `LDAPInvalidCredentials`. -/
inductive LdapResult
  | found (cn : String)
  | userNotFound
  | invalidCredentials
  | adminBindFailed
deriving DecidableEq, Repr

/-- The user data `authenticate` in server/gd.py:48 returns on success. -/
structure GdUser where
  role : String
  name : String
deriving DecidableEq, Repr

/-- How a call of gd's `authenticate` terminates: a result, an `AuthError`
(one of the declared `auth_exceptions`), or an exception no handler
catches. -/
inductive AuthOutcome
  | ok (u : GdUser)
  | authError
  | uncaughtError
deriving DecidableEq, Repr

/-- `authenticate` from server/gd.py:48: reject non-string credentials
with `AuthError`; translate only `LDAPInvalidCredentials` and
`LDAPUserNotFound` to `AuthError`; `LDAPInvalidAdminCredentials` (and
other connectivity failures) propagate uncaught.  On success the session
data is the fixed role `admin` and the entry's `cn`. -/
def gd_authenticate (ldap : String → String → LdapResult)
    (username password : JVal) : AuthOutcome :=
  match username, password with
  | .str u, .str pw =>
    (match ldap u pw with
     | .found cn => .ok { role := "admin", name := cn }
     | .userNotFound => .authError
     | .invalidCredentials => .authError
     | .adminBindFailed => .uncaughtError)
  | _, _ => .authError

/-- What an authentication/refresh HTTP request produces: a 401 with an
optional `error` challenge parameter, an uncaught exception (HTTP 500),
or a 200 carrying the fresh token and its `expires_in`. -/
inductive HandlerResult
  | unauthorized (err : Option String)
  | serverError
  | tokenOk (claims : ClaimsMap) (expires_in : Int)
deriving DecidableEq, Repr

/-- `session_duration` of `SanicJWEAuth` (jweauth.py:33): 30 days. -/
def session_duration : Int := 60 * 60 * 24 * 30

/-- `token_duration` of `SanicJWEAuth` (jweauth.py:34): 5 minutes. -/
def token_duration : Int := 60 * 5

/-- `SanicJWEAuth.create_jwe` (jweauth.py:170) under the server/gd.py
configuration (`session_fields = uid→sub, role→r, name→n`;
`auth_fields = username→sub, password→p`): encrypt the merged session and
credential claims with the token TTL and the given original `nbf`. -/
def create_jwe (u : GdUser) (username password : JVal) (now : Int)
    (nbf : Option Int) : ClaimsMap :=
  JWEConverter.encrypt
    { sub := some username, p := some password,
      r := some (JVal.str u.role), n := some (JVal.str u.name),
      exp := none, nbf := none }
    now token_duration nbf none

/-- `SanicJWEAuth.create_response` (jweauth.py:194): run `authenticate`,
collapse its `auth_exceptions` to a plain 401, let anything else
propagate, and otherwise answer with the token and `expires_in`. -/
def create_response (ldap : String → String → LdapResult)
    (username password : JVal) (now : Int) (nbf : Option Int) : HandlerResult :=
  match gd_authenticate ldap username password with
  | .ok u => .tokenOk (create_jwe u username password now nbf) token_duration
  | .authError => .unauthorized none
  | .uncaughtError => .serverError

/-- `SanicJWEAuth.post_handler` (jweauth.py:209), the `POST /auth` route,
with the payload fields already extracted. -/
def post_handler (ldap : String → String → LdapResult)
    (username password : JVal) (now : Int) : HandlerResult :=
  create_response ldap username password now none

/-- `SanicJWEAuth.get_handler` (jweauth.py:216), the token-refresh route:
decrypt ignoring expiry (`check_exp=False`); 401 on a missing header, a
non-JWE token, or a not-yet-valid token; an uncaught exception on a
missing claim (the handler only catches `InvalidJWEData` and the time
exceptions); 401 when the session window measured from the token's `nbf`
has elapsed; then re-authenticate with the credentials stored in the
token (`jwe["sub"]`, `jwe["p"]` — a missing `p` key is an uncaught
`KeyError`) and reissue preserving the original `nbf`. -/
def get_handler (ldap : String → String → LdapResult)
    (tok : Option Token) (now : Int) : HandlerResult :=
  match tok with
  | none => .unauthorized none
  | some t =>
    match JWEConverter.decrypt t now false with
    | .error .jweInvalid => .unauthorized (some "invalid_token")
    | .error .jweNotYetValid => .unauthorized (some "unsynchronized")
    | .error _ => .serverError
    | .ok jwe =>
      match jwe.nbf with
      | none => .serverError
      | some nbfv =>
        if session_duration < now - nbfv then .unauthorized (some "invalid_token")
        else
          match jwe.p with
          | none => .serverError
          | some pw => create_response ldap (jwe.sub.getD JVal.null) pw now (some nbfv)

/-- A stored `snapshot` row (models.py:64).  Its primary key — the content
identity used for idempotent ingestion — is (`data`, `source`, `tstamp`). -/
structure SnapRow where
  data : JVal
  source : String
  tstamp : Int
  uid : String
deriving DecidableEq, Repr

/-- Whether two snapshot rows collide on the (`data`, `source`, `tstamp`)
primary key. -/
def sameKey (r1 r2 : SnapRow) : Bool :=
  decide (r1.data = r2.data ∧ r1.source = r2.source ∧ r1.tstamp = r2.tstamp)

/-- One line of a `POST /snapshot/batch` body, as the handler's loop
classifies it: blank after stripping, not parseable as JSON (or not
decodable / not convertible — anything `ujson.loads` or
`datetime.fromtimestamp` raises on), or a JSON object with the column
fields, where `hasUid` records the presence of the forbidden `uid` key. -/
inductive SnapLine
  | empty
  | malformed
  | obj (hasUid : Bool) (data : Option JVal) (source : Option String) (tstamp : Option Int)
deriving DecidableEq, Repr

/-- A row built by the loop before the insert: the values the statement
will supply, with `none` for columns left to their server defaults. -/
structure PendingRow where
  data : Option JVal
  source : Option String
  tstamp : Option Int
deriving DecidableEq, Repr

/-- What stops the parsing loop of `post_snapshot_batch` early. -/
inductive LineError
  | lineMalformed
  | lineHasUid
deriving DecidableEq, Repr

/-- The parsing loop of `post_snapshot_batch` (server/gd.py:380-389):
skip blank lines; a line that fails to parse raises out of the handler; a
line carrying `uid` makes the handler return `invalid_snapshot`
immediately; otherwise the line's values are collected for the single
insert issued after the loop. -/
def collectRows : List SnapLine → Except LineError (List PendingRow)
  | [] => .ok []
  | .empty :: rest => collectRows rest
  | .malformed :: _ => .error .lineMalformed
  | .obj hasUid d s t :: rest =>
    if hasUid then .error .lineHasUid
    else (collectRows rest).map (fun prs => ⟨d, s, t⟩ :: prs)

/-- Materialise a pending row: the session `uid` is always added by the
handler, and a missing `tstamp` falls back to the server default — the
transaction timestamp `now`, shared by every row of the statement. -/
def toSnapRow (uid : String) (now : Int) (pr : PendingRow) : SnapRow :=
  { data := pr.data.getD JVal.null, source := pr.source.getD "",
    tstamp := pr.tstamp.getD now, uid := uid }

/-- `INSERT ... ON CONFLICT DO NOTHING ... RETURNING` over the snapshot
table: rows whose primary key is already present (in the table or earlier
in the same statement) are skipped silently; the returned count is the
number of rows actually written. -/
def insertRows (db : List SnapRow) (rows : List SnapRow) : List SnapRow × Nat :=
  rows.foldl
    (fun acc row =>
      if acc.1.any (fun r0 => sameKey r0 row) then acc
      else (acc.1 ++ [row], acc.2 + 1))
    (db, 0)

/-- How a `POST /snapshot/batch` request terminates. -/
inductive BatchResult
  | invalidSnapshot
  | parseError
  | notNullViolation
  | inserted (db : List SnapRow) (count : Nat)
deriving DecidableEq, Repr

/-- `post_snapshot_batch` (server/gd.py:378): parse and validate every
line before any insert; then issue the single counting insert (a row
missing `data` or `source` violates NOT NULL and aborts the statement);
an empty collection skips the insert and reports count 0. -/
def post_snapshot_batch (db : List SnapRow) (body : List SnapLine)
    (uid : String) (now : Int) : BatchResult :=
  match collectRows body with
  | .error .lineMalformed => .parseError
  | .error .lineHasUid => .invalidSnapshot
  | .ok prs =>
    if prs.any (fun pr => pr.data.isNone || pr.source.isNone) then .notNullViolation
    else if prs.isEmpty then .inserted db 0
    else
      let res := insertRows db (prs.map (toSnapRow uid now))
      .inserted res.1 res.2

/-- The pending row a single well-formed line contributes: the loop body
of `post_snapshot_batch` for a non-blank, parseable, uid-free line. -/
def pendingOf : SnapLine → PendingRow
  | .obj _ d s t => ⟨d, s, t⟩
  | _ => ⟨none, none, none⟩

/-! Concrete states used to evaluate the handlers at specific inputs. -/

/-- Node A: a published document version with id 1. -/
def nodeA : HistNode := { hid := 1, pid := "doc", title := "a", published := some true }

/-- Node B: a published document version with id 2. -/
def nodeB : HistNode := { hid := 2, pid := "doc", title := "b", published := some true }

/-- Node C: a published document version with id 3. -/
def nodeC : HistNode := { hid := 3, pid := "doc", title := "c", published := some true }

/-- The provenance edge A→B. -/
def edgeAB : EventEdge :=
  { parent := some 1, hist := 2, uid := "u", reason := "update", tstamp := 1 }

/-- The provenance edge B→C. -/
def edgeBC : EventEdge :=
  { parent := some 2, hist := 3, uid := "u", reason := "update", tstamp := 2 }

/-- The cycle-closing provenance edge C→A. -/
def edgeCA : EventEdge :=
  { parent := some 3, hist := 1, uid := "u", reason := "update", tstamp := 3 }

/-- Three published nodes and no edges yet. -/
def dbBase : DB :=
  { hists := [nodeA, nodeB, nodeC], events := [], users := ["u"], nextId := 4 }

/-- The state holding the chain A→B→C. -/
def dbABC : DB :=
  { hists := [nodeA, nodeB, nodeC], events := [edgeAB, edgeBC], users := ["u"], nextId := 4 }

/-- `dbABC` right after the statement phase inserting the edge C→A. -/
def dbABCplus : DB := { dbABC with events := dbABC.events ++ [edgeCA] }

/-- A single published node, no edges. -/
def dbW1 : DB := { hists := [nodeA], events := [], users := ["u"], nextId := 2 }

/-- A root-creation edge for node 1. -/
def edgeW1 : EventEdge :=
  { parent := none, hist := 1, uid := "u", reason := "insert", tstamp := 0 }

/-- `dbW1` after committing `edgeW1`. -/
def dbW1plus : DB := { dbW1 with events := [edgeW1] }

/-- An unpublished node 2 whose incoming edge from the published node 1
is already stored: node 2 has an ancestor but `published = false`. -/
def dbPQ : DB :=
  { hists := [nodeA, { hid := 2, pid := "doc", title := "p", published := some false }],
    events := [{ parent := some 1, hist := 2, uid := "u", reason := "update", tstamp := 0 }],
    users := ["u"], nextId := 3 }

/-- An edge from the unpublished node 2 back to its ancestor 1: its child
equals an ancestor of its parent, and its parent is unpublished. -/
def edgePQ : EventEdge :=
  { parent := some 2, hist := 1, uid := "u", reason := "update", tstamp := 1 }

/-- A node whose `published` column is NULL (reachable through the
administrative `PATCH /node` route, which writes request fields as is). -/
def nodeNullPub : HistNode := { hid := 1, pid := "doc", title := "p", published := none }

/-- A state with a NULL-published node 1 and an ordinary node 2. -/
def dbNullPub : DB :=
  { hists := [nodeNullPub, { hid := 2, pid := "doc", title := "h" }],
    events := [], users := ["u"], nextId := 3 }

/-- An edge whose parent is the NULL-published node. -/
def edgeNullPub : EventEdge :=
  { parent := some 1, hist := 2, uid := "u", reason := "update", tstamp := 0 }

/-- `dbNullPub` after the edge is committed. -/
def dbNullPubPlus : DB := { dbNullPub with events := [edgeNullPub] }

/-- A state already holding a root-creation edge for node 1. -/
def dbDup : DB :=
  { hists := [nodeA], events := [edgeW1], users := ["u"], nextId := 2 }

/-- A second root-creation edge for node 1 (differing in timestamp). -/
def edgeDup : EventEdge :=
  { parent := none, hist := 1, uid := "u", reason := "insert", tstamp := 5 }

/-- A state where node 1 is referenced as a parent but is the child of no
edge (its root-creation edge was deleted, or it was created through the
administrative `POST /node` route). -/
def dbOrphan : DB :=
  { hists := [nodeA, nodeB],
    events := [{ parent := some 1, hist := 2, uid := "u", reason := "update", tstamp := 0 }],
    users := ["u"], nextId := 3 }

/-- The stored edge of `dbOrphan`. -/
def edgeOrphan : EventEdge :=
  { parent := some 1, hist := 2, uid := "u", reason := "update", tstamp := 0 }

/-- A healthy two-node state: a root-creation edge for node 1 and an
update edge 1→2, so every referenced parent also has an incoming edge. -/
def dbTwo : DB :=
  { hists := [nodeA, nodeB],
    events := [edgeW1, { parent := some 1, hist := 2, uid := "u", reason := "update", tstamp := 1 }],
    users := ["u"], nextId := 3 }

/-- An empty store knowing one user. -/
def dbEmptyU : DB := { hists := [], events := [], users := ["u"], nextId := 0 }

/-- A well-formed `POST /document` payload. -/
def payloadW : DocPayload :=
  { pid := some (JVal.str "doc1"), title := some (JVal.str "t"), published := none }

/-- A claims mapping whose `nbf` lies in the future of its `exp`. -/
def cBadNbf : ClaimsMap := { sub := some (JVal.str "s"), exp := some 5, nbf := some 100 }

/-- A well-formed refresh token: subject, password claim, expiry, and an
original not-before 100 seconds in the past at time 1000100. -/
def cRefresh : ClaimsMap :=
  { sub := some (JVal.str "u"), p := some (JVal.str "pw"),
    exp := some 1000300, nbf := some 1000000 }

/-- An identity provider that rejects every bind as wrong credentials. -/
def ldapReject : String → String → LdapResult := fun _ _ => LdapResult.invalidCredentials

/-- A snapshot line that omits its `tstamp` (left to the server default). -/
def lineNoT : SnapLine := SnapLine.obj false (some (JVal.str "d")) (some "s") none

/-- The row the first submission of `lineNoT` stores at time 10. -/
def rowT10 : SnapRow := { data := JVal.str "d", source := "s", tstamp := 10, uid := "u" }

/-- The row the second submission of `lineNoT` stores at time 20. -/
def rowT20 : SnapRow := { data := JVal.str "d", source := "s", tstamp := 20, uid := "u" }


section FixpointIteration

variable {α : Type}

/-- An inflationary step keeps the seed inside every iterate. -/
theorem subset_iterate_of_infl (f : Finset α → Finset α) (hf : ∀ s, s ⊆ f s)
    (s0 : Finset α) : ∀ n, s0 ⊆ f^[n] s0 := by
  intro n
  induction n with
  | zero => simp
  | succ n ih =>
    rw [Function.iterate_succ_apply']
    exact ih.trans (hf _)

/-- Iterates of a step bounded by a universe stay in the universe. -/
theorem iterate_subset_of_bound (f : Finset α → Finset α) (U : Finset α)
    (hb : ∀ s, s ⊆ U → f s ⊆ U) (s0 : Finset α) (h0 : s0 ⊆ U) :
    ∀ n, f^[n] s0 ⊆ U := by
  intro n
  induction n with
  | zero => simpa
  | succ n ih =>
    rw [Function.iterate_succ_apply']
    exact hb _ ih

/-- Once two consecutive iterates agree, the sequence is constant. -/
theorem iterate_stable (f : Finset α → Finset α) (s0 : Finset α) (k : ℕ)
    (hk : f^[k + 1] s0 = f^[k] s0) :
    ∀ m, k ≤ m → f^[m] s0 = f^[k] s0 := by
  intro m hm
  induction m with
  | zero => simp_all
  | succ m ih =>
    rcases Nat.lt_or_ge k (m + 1) with hlt | hge
    · have hkm : k ≤ m := Nat.lt_succ_iff.mp hlt
      have := ih hkm
      calc f^[m + 1] s0 = f (f^[m] s0) := Function.iterate_succ_apply' f m s0
        _ = f (f^[k] s0) := by rw [this]
        _ = f^[k + 1] s0 := (Function.iterate_succ_apply' f k s0).symm
        _ = f^[k] s0 := hk
    · have : k = m + 1 := Nat.le_antisymm hm hge
      rw [this]

/-- While no two consecutive iterates of an inflationary step agree, the
cardinality grows by at least one per iteration. -/
theorem iterate_card_grow (f : Finset α → Finset α) (hf : ∀ s, s ⊆ f s)
    (s0 : Finset α) :
    ∀ n, (∀ k, k < n → f^[k + 1] s0 ≠ f^[k] s0) →
      s0.card + n ≤ (f^[n] s0).card := by
  intro n
  induction n with
  | zero => simp
  | succ n ih =>
    intro hne
    have h1 : s0.card + n ≤ (f^[n] s0).card :=
      ih (fun k hk => hne k (Nat.lt_succ_of_lt hk))
    have hsub : f^[n] s0 ⊆ f^[n + 1] s0 := by
      rw [Function.iterate_succ_apply']
      exact hf _
    have hne' : f^[n] s0 ≠ f^[n + 1] s0 := fun h => hne n (Nat.lt_succ_self n) h.symm
    have : (f^[n] s0).card < (f^[n + 1] s0).card :=
      Finset.card_lt_card (Finset.ssubset_iff_subset_ne.mpr ⟨hsub, hne'⟩)
    omega

/-- An inflationary step bounded by a finite universe reaches a fixed
point within `U.card` iterations. -/
theorem iterate_reaches_fixpoint (f : Finset α → Finset α) (hf : ∀ s, s ⊆ f s)
    (U : Finset α) (hb : ∀ s, s ⊆ U → f s ⊆ U) (s0 : Finset α) (h0 : s0 ⊆ U)
    (n : ℕ) (hn : U.card < n) : f (f^[n] s0) = f^[n] s0 := by
  by_cases hex : ∃ k, k ≤ U.card ∧ f^[k + 1] s0 = f^[k] s0
  · obtain ⟨k, hk, heq⟩ := hex
    have hkn : k ≤ n := hk.trans hn.le
    have h1 : f^[n] s0 = f^[k] s0 := iterate_stable f s0 k heq n hkn
    have h2 : f^[n + 1] s0 = f^[k] s0 :=
      iterate_stable f s0 k heq (n + 1) (hkn.trans (Nat.le_succ n))
    rw [← Function.iterate_succ_apply' f n s0, h1, h2]
  · push_neg at hex
    have hgrow : s0.card + (U.card + 1) ≤ (f^[U.card + 1] s0).card :=
      iterate_card_grow f hf s0 (U.card + 1)
        (fun k hk => hex k (Nat.lt_succ_iff.mp hk))
    have hbound : (f^[U.card + 1] s0).card ≤ U.card :=
      Finset.card_le_card (iterate_subset_of_bound f U hb s0 h0 (U.card + 1))
    omega

end FixpointIteration

/-- The CTE step of the cycle trigger is inflationary. -/
theorem ancStep_infl (events : List EventEdge) : ∀ s, s ⊆ ancStep events s :=
  fun _ => Finset.subset_union_left

/-- The CTE step of the cycle trigger never leaves the seed together with
the non-null parents of the edge set. -/
theorem ancStep_bound (events : List EventEdge) (p : Nat) :
    ∀ s, s ⊆ insert p (parentsOf events) →
      ancStep events s ⊆ insert p (parentsOf events) := by
  intro s hs
  apply Finset.union_subset hs
  intro x hx
  rw [List.mem_toFinset, List.mem_filterMap] at hx
  obtain ⟨e, he, hback⟩ := hx
  apply Finset.mem_insert_of_mem
  rw [parentsOf, List.mem_toFinset, List.mem_filterMap]
  refine ⟨e, he, ?_⟩
  by_cases hmem : e.hist ∈ s <;> simp [hmem] at hback
  simp [hback]

/-- The iteration count in `ancestors` reaches the CTE's fixed point. -/
theorem ancestors_fixpoint (events : List EventEdge) (p : Nat) :
    ancStep events (ancestors events p) = ancestors events p := by
  apply iterate_reaches_fixpoint (ancStep events) (ancStep_infl events)
    (insert p (parentsOf events)) (ancStep_bound events p) {p}
    (Finset.singleton_subset_iff.mpr (Finset.mem_insert_self p _))
  calc (insert p (parentsOf events)).card
      ≤ (parentsOf events).card + 1 := Finset.card_insert_le p _
    _ = (events.filterMap (fun e => e.parent)).toFinset.card + 1 := by rw [parentsOf]
    _ ≤ (events.filterMap (fun e => e.parent)).length + 1 :=
        Nat.add_le_add_right (events.filterMap (fun e => e.parent)).toFinset_card_le 1
    _ ≤ events.length + 1 := Nat.add_le_add_right (List.length_filterMap_le _ _) 1
    _ < events.length + 2 := Nat.lt_succ_self _

/-- Every member of `ancestors events p` reaches `p` along stored edges
(in the child-to-parent direction of the CTE, i.e. `p` descends from it). -/
theorem mem_ancestors_sound (events : List EventEdge) (p x : Nat)
    (hx : x ∈ ancestors events p) :
    Relation.ReflTransGen (childStep events) x p := by
  suffices h : ∀ n y, y ∈ (ancStep events)^[n] {p} →
      Relation.ReflTransGen (childStep events) y p from h _ x hx
  intro n
  induction n with
  | zero =>
    intro y hy
    rw [Function.iterate_zero_apply, Finset.mem_singleton] at hy
    exact hy ▸ Relation.ReflTransGen.refl
  | succ n ih =>
    intro y hy
    rw [Function.iterate_succ_apply', ancStep, Finset.mem_union] at hy
    rcases hy with hy | hy
    · exact ih y hy
    · rw [List.mem_toFinset, List.mem_filterMap] at hy
      obtain ⟨e, he, hback⟩ := hy
      by_cases hmem : e.hist ∈ (ancStep events)^[n] {p}
      · simp only [hmem, if_pos] at hback
        exact Relation.ReflTransGen.head ⟨e, he, hback, rfl⟩ (ih e.hist hmem)
      · simp [hmem] at hback

/-- Conversely, everything from which `p` descends along stored edges is
found by the CTE. -/
theorem mem_ancestors_complete (events : List EventEdge) (p x : Nat)
    (hx : Relation.ReflTransGen (childStep events) x p) :
    x ∈ ancestors events p := by
  induction hx using Relation.ReflTransGen.head_induction_on with
  | refl =>
    exact subset_iterate_of_infl (ancStep events) (ancStep_infl events) {p}
      (events.length + 2) (Finset.mem_singleton_self p)
  | head hstep _ ih =>
    rename_i a c _
    obtain ⟨e, he, hpar, hhist⟩ := hstep
    rw [← ancestors_fixpoint events p, ancStep]
    apply Finset.mem_union_right
    rw [List.mem_toFinset, List.mem_filterMap]
    refine ⟨e, he, ?_⟩
    rw [hhist, if_pos ih, hpar]

/-- Membership in the cycle-trigger CTE is exactly ancestor reachability. -/
theorem mem_ancestors_iff (events : List EventEdge) (p x : Nat) :
    x ∈ ancestors events p ↔ Relation.ReflTransGen (childStep events) x p :=
  ⟨mem_ancestors_sound events p x, mem_ancestors_complete events p x⟩

/-- The `get_graph` CTE step is inflationary. -/
theorem gStep_infl (events : List EventEdge) : ∀ s, s ⊆ gStep events s :=
  fun _ => Finset.subset_union_left

/-- The `get_graph` CTE step only ever adds stored edges. -/
theorem gStep_bound (events : List EventEdge) :
    ∀ s, s ⊆ events.toFinset → gStep events s ⊆ events.toFinset := by
  intro s hs
  apply Finset.union_subset hs
  intro e he
  rw [List.mem_toFinset] at he ⊢
  exact List.mem_of_mem_filter he

/-- The iteration count in `get_graph_edges` reaches the CTE's fixed point. -/
theorem get_graph_edges_fixpoint (events : List EventEdge) (hid : Nat) :
    gStep events (get_graph_edges events hid) = get_graph_edges events hid := by
  apply iterate_reaches_fixpoint (gStep events) (gStep_infl events)
    events.toFinset (gStep_bound events) _ ?_ _ ?_
  · intro e he
    rw [List.mem_toFinset] at he ⊢
    exact List.mem_of_mem_filter he
  · exact Nat.lt_succ_of_le events.toFinset_card_le

/-- Every edge `get_graph` returns is a stored edge. -/
theorem get_graph_edges_subset (events : List EventEdge) (hid : Nat) :
    ∀ e ∈ get_graph_edges events hid, e ∈ events := by
  intro e he
  have : get_graph_edges events hid ⊆ events.toFinset := by
    apply iterate_subset_of_bound (gStep events) events.toFinset (gStep_bound events)
    intro x hx
    rw [List.mem_toFinset] at hx ⊢
    exact List.mem_of_mem_filter hx
  exact List.mem_toFinset.mp (this he)

/-- The edge set `get_graph` returns is closed under the CTE's join: any
stored edge adjacent to a returned edge is returned as well. -/
theorem get_graph_edges_closed (events : List EventEdge) (hid : Nat)
    (e : EventEdge) (he : e ∈ get_graph_edges events hid)
    (evt : EventEdge) (hevt : evt ∈ events) (hadj : edgeAdj e evt = true) :
    evt ∈ get_graph_edges events hid := by
  rw [← get_graph_edges_fixpoint events hid, gStep]
  apply Finset.mem_union_right
  rw [List.mem_toFinset, List.mem_filter]
  exact ⟨hevt, decide_eq_true ⟨e, he, hadj⟩⟩

/-- Widening the edge list preserves a provenance step. -/
theorem childStep_append_left {E es : List EventEdge} {a b : Nat}
    (h : childStep E a b) : childStep (E ++ es) a b := by
  obtain ⟨e, he, hp, hh⟩ := h
  exact ⟨e, List.mem_append_left es he, hp, hh⟩

/-- Decomposition of a provenance chain over an extended edge list: it
either stays within the original edges, or it passes through one of the
added edges, splitting into a chain into that edge's parent and a chain
out of its child. -/
theorem transGen_childStep_append {E es : List EventEdge} {x y : Nat}
    (h : Relation.TransGen (childStep (E ++ es)) x y) :
    Relation.TransGen (childStep E) x y ∨
    ∃ e ∈ es, ∃ p, e.parent = some p ∧
      Relation.ReflTransGen (childStep (E ++ es)) x p ∧
      Relation.ReflTransGen (childStep (E ++ es)) e.hist y := by
  induction h with
  | single hstep =>
    obtain ⟨e, he, hp, hh⟩ := hstep
    rcases List.mem_append.mp he with he' | he'
    · exact Or.inl (Relation.TransGen.single ⟨e, he', hp, hh⟩)
    · exact Or.inr ⟨e, he', x, hp, Relation.ReflTransGen.refl,
        hh ▸ Relation.ReflTransGen.refl⟩
  | tail hxb hstep ih =>
    rename_i b c
    obtain ⟨e, he, hp, hh⟩ := hstep
    rcases List.mem_append.mp he with he' | he'
    · rcases ih with ihl | ⟨e', he'', p, hp', hxp, hhb⟩
      · exact Or.inl (Relation.TransGen.tail ihl ⟨e, he', hp, hh⟩)
      · exact Or.inr ⟨e', he'', p, hp', hxp,
          Relation.ReflTransGen.tail hhb ⟨e, he, hp, hh⟩⟩
    · exact Or.inr ⟨e, he', b, hp, hxb.to_reflTransGen,
        hh ▸ Relation.ReflTransGen.refl⟩

/-- If the stored edges are acyclic and every edge of a batch passes the
deferred cycle trigger over the full edge set as of commit, the full edge
set is acyclic. -/
theorem acyclic_of_commit_checks {E es : List EventEdge}
    (hacyc : Acyclic E)
    (hchecks : ∀ e ∈ es, check_document_cycle (E ++ es) e = false) :
    Acyclic (E ++ es) := by
  intro x hx
  rcases transGen_childStep_append hx with hl | ⟨e, he, p, hp, hxp, hhx⟩
  · exact hacyc x hl
  · have hreach : Relation.ReflTransGen (childStep (E ++ es)) e.hist p :=
      hhx.trans hxp
    have hmem : e.hist ∈ ancestors (E ++ es) p :=
      mem_ancestors_complete (E ++ es) p e.hist hreach
    have := hchecks e he
    rw [check_document_cycle, hp] at this
    simp [hmem] at this

/-- Characterisation of a successful `document_event` insert statement:
the result appends the row, and every statement-time check passed. -/
theorem stmtInsertEdge_ok {db : DB} {e : EventEdge} {db' : DB}
    (h : stmtInsertEdge db e = .ok db') :
    db' = { db with events := db.events ++ [e] } ∧
    violatesParentHistIndex db.events e = false ∧
    violatesNullHistIndex db.events e = false ∧
    histExistsB db e.hist = true ∧
    parentExistsB db e = true ∧
    db.users.contains e.uid = true ∧
    check_parent_published db e = false := by
  rw [stmtInsertEdge] at h
  split_ifs at h with h1 h2 h3 h4 h5 h6
  all_goals cases h
  all_goals refine ⟨rfl, ?_, ?_, ?_, ?_, ?_, ?_⟩
  all_goals simp_all [Bool.not_eq_true]

/-- The converse: when every statement-time check passes, the insert
succeeds and appends the row. -/
theorem stmtInsertEdge_ok_of {db : DB} {e : EventEdge}
    (h1 : violatesParentHistIndex db.events e = false)
    (h2 : violatesNullHistIndex db.events e = false)
    (h3 : histExistsB db e.hist = true)
    (h4 : parentExistsB db e = true)
    (h5 : db.users.contains e.uid = true)
    (h6 : check_parent_published db e = false) :
    stmtInsertEdge db e = .ok { db with events := db.events ++ [e] } := by
  rw [stmtInsertEdge]
  have h5m : e.uid ∈ db.users := by simpa using h5
  simp [h1, h2, h3, h4, h5m, h6]

/-- The statement phase of a committed transaction appends exactly the
inserted rows and touches nothing else. -/
theorem runEdgeStmts_ok {es : List EventEdge} :
    ∀ {db db' : DB}, runEdgeStmts db es = .ok db' →
      db'.events = db.events ++ es ∧ db'.hists = db.hists ∧
      db'.users = db.users ∧ db'.nextId = db.nextId := by
  induction es with
  | nil =>
    intro db db' h
    rw [runEdgeStmts] at h
    cases h
    simp
  | cons e rest ih =>
    intro db db' h
    rw [runEdgeStmts] at h
    cases hs : stmtInsertEdge db e with
    | error err => rw [hs] at h; cases h
    | ok db2 =>
      rw [hs] at h
      obtain ⟨hdb2, -⟩ := stmtInsertEdge_ok hs
      obtain ⟨hev, hhi, hus, hni⟩ := ih h
      subst hdb2
      simp_all

/-- Characterisation of a committed edge-insert transaction: the
statement phase succeeded and every inserted row passed the deferred
cycle trigger over the edge set as of commit. -/
theorem commitEdgeTxn_ok {db : DB} {es : List EventEdge} {db' : DB}
    (h : commitEdgeTxn db es = .ok db') :
    runEdgeStmts db es = .ok db' ∧
    ∀ e ∈ es, check_document_cycle db'.events e = false := by
  rw [commitEdgeTxn] at h
  split at h
  · cases h
  · rename_i db2 hs
    by_cases hany : (es.any fun e => check_document_cycle db2.events e) = true
    · rw [if_pos hany] at h; cases h
    · rw [if_neg hany] at h
      cases h
      refine ⟨hs, ?_⟩
      intro e he
      rw [List.any_eq_true] at hany
      push_neg at hany
      simpa using hany e he

/-- An empty edge set is acyclic. -/
theorem acyclic_nil : Acyclic [] := by
  intro x h
  cases h with
  | single hs => obtain ⟨e, he, -⟩ := hs; cases he
  | tail _ hs => obtain ⟨e, he, -⟩ := hs; cases he

/-- A successful point lookup returns a stored row with the queried id. -/
theorem lookupHist_some {db : DB} {p : Nat} {nd : HistNode}
    (h : lookupHist db p = some nd) : nd ∈ db.hists ∧ nd.hid = p := by
  refine ⟨List.mem_of_find?_eq_some h, ?_⟩
  have := List.find?_some h
  simpa using this

/-- A successful point lookup certifies existence. -/
theorem histExistsB_of_lookup {db : DB} {p : Nat} {nd : HistNode}
    (h : lookupHist db p = some nd) : histExistsB db p = true := by
  obtain ⟨hm, hh⟩ := lookupHist_some h
  rw [histExistsB, List.any_eq_true]
  exact ⟨nd, hm, by simp [hh]⟩

/-- Existence certifies a successful point lookup. -/
theorem lookupHist_of_histExistsB {db : DB} {p : Nat}
    (h : histExistsB db p = true) : ∃ nd, lookupHist db p = some nd := by
  rw [histExistsB, List.any_eq_true] at h
  obtain ⟨nd, hm, hh⟩ := h
  cases hl : lookupHist db p with
  | none =>
    rw [lookupHist] at hl
    have := List.find?_eq_none.mp hl nd hm
    simp_all
  | some nd2 => exact ⟨nd2, rfl⟩

/-- A one-row statement phase is a single insert statement. -/
theorem runEdgeStmts_singleton {db db' : DB} {e : EventEdge}
    (h : runEdgeStmts db [e] = .ok db') : stmtInsertEdge db e = .ok db' := by
  rw [runEdgeStmts] at h
  split at h
  · cases h
  · rename_i db2 hs
    rw [runEdgeStmts] at h
    cases h
    exact hs

/-- C1 (amended).  An edge insert that passes the statement-time checks
and whose child is among the ancestors of its parent — ancestry computed
by the transitive-closure CTE over the edge set as of commit — is
rejected with `ParentCycle`, and only at commit: the statement itself
succeeds.  Consequently any edge-insert transaction that commits on an
acyclic store leaves the edge set acyclic.  In particular the chain
A→B→C commits, and then closing the cycle with C→A passes at statement
time but fails with `ParentCycle` at commit.  (The original claim is
amended only by requiring the statement-time checks to pass: an edge
that is simultaneously cycle-forming and, say, unpublished-parented is
rejected earlier with the other error — see the counterexample.) -/
theorem C1_parent_cycle_rejected_at_commit :
    (∀ (db : DB) (e : EventEdge) (p : Nat) (db1 : DB),
        e.parent = some p →
        stmtInsertEdge db e = .ok db1 →
        e.hist ∈ ancestors db1.events p →
        post_edge_event db e = .error .parentCycle)
    ∧
    (∀ (db : DB) (es : List EventEdge) (db' : DB),
        Acyclic db.events →
        commitEdgeTxn db es = .ok db' →
        Acyclic db'.events)
    ∧
    (commitEdgeTxn dbBase [edgeAB, edgeBC] = .ok dbABC ∧
     stmtInsertEdge dbABC edgeCA = .ok dbABCplus ∧
     post_edge_event dbABC edgeCA = .error .parentCycle) := by
  refine ⟨?_, ?_, rfl, rfl, rfl⟩
  · intro db e p db1 hp hstmt hmem
    have hrun : runEdgeStmts db [e] = .ok db1 := by
      simp only [runEdgeStmts, hstmt]
    have hchk : check_document_cycle db1.events e = true := by
      rw [check_document_cycle, hp]
      exact decide_eq_true hmem
    simp only [post_edge_event, commitEdgeTxn, hrun, List.any_cons, List.any_nil,
      hchk, Bool.or_false, if_pos]
  · intro db es db' hacyc hcommit
    obtain ⟨hrun, hchecks⟩ := commitEdgeTxn_ok hcommit
    obtain ⟨hev, -, -, -⟩ := runEdgeStmts_ok hrun
    rw [hev]
    rw [hev] at hchecks
    exact acyclic_of_commit_checks hacyc hchecks

/-- C1 witness: the theorem applied at the A→B→C chain (part one: the
cycle-closing edge is rejected at commit) and at a concrete committing
transaction (part two: the committed store is acyclic). -/
theorem C1_witness :
    post_edge_event dbABC edgeCA = .error .parentCycle ∧ Acyclic dbW1plus.events :=
  ⟨C1_parent_cycle_rejected_at_commit.1 dbABC edgeCA 3 dbABCplus rfl rfl (by decide),
   C1_parent_cycle_rejected_at_commit.2.1 dbW1 [edgeW1] dbW1plus acyclic_nil rfl⟩

/-- C1 counterexample: the edge 2→1 in `dbPQ` has its child 1 among the
ancestors of its parent 2 (the edge 1→2 is stored), yet inserting it is
rejected with `ParentUnpublished` at statement time — not with
`ParentCycle` at commit — because node 2 is unpublished and the immediate
trigger fires first. -/
theorem C1_counterexample :
    edgePQ.parent = some 2 ∧
    edgePQ.hist ∈ ancestors (dbPQ.events ++ [edgePQ]) 2 ∧
    stmtInsertEdge dbPQ edgePQ = .error .parentUnpublished ∧
    post_edge_event dbPQ edgePQ = .error .parentUnpublished ∧
    post_edge_event dbPQ edgePQ ≠ .error .parentCycle := by
  refine ⟨rfl, by decide, rfl, rfl, ?_⟩
  intro hcon
  rw [show post_edge_event dbPQ edgePQ = .error .parentUnpublished from rfl] at hcon
  cases hcon

/-- C2 (amended).  When an edge's non-null parent has `published = false`
and no earlier statement check fires (the edge is not a duplicate and its
foreign keys resolve), the insert fails with `ParentUnpublished`, and it
does so immediately at statement time.  Conversely a committed edge with
a non-null parent certifies that the parent's `published` flag was not
`false` at insert time — `true`, or NULL (the trigger's `IF NOT NULL`
does not raise), which is why the original "only when published=true"
phrasing had to be weakened. -/
theorem C2_parent_unpublished :
    (∀ (db : DB) (e : EventEdge) (p : Nat) (nd : HistNode),
        e.parent = some p →
        lookupHist db p = some nd →
        nd.published = some false →
        violatesParentHistIndex db.events e = false →
        histExistsB db e.hist = true →
        db.users.contains e.uid = true →
        stmtInsertEdge db e = .error .parentUnpublished ∧
        post_edge_event db e = .error .parentUnpublished)
    ∧
    (∀ (db : DB) (e : EventEdge) (p : Nat) (db' : DB),
        e.parent = some p →
        post_edge_event db e = .ok db' →
        ∃ nd, lookupHist db p = some nd ∧ nd.published ≠ some false) := by
  constructor
  · intro db e p nd hp hlook hpub hv1 hhist huid
    have hv2 : violatesNullHistIndex db.events e = false := by
      rw [violatesNullHistIndex, hp]
      simp
    have hpe : parentExistsB db e = true := by
      simp only [parentExistsB, hp]
      exact histExistsB_of_lookup hlook
    have hcp : check_parent_published db e = true := by
      simp only [check_parent_published, hp, hlook]
      simp [hpub]
    have huidm : e.uid ∈ db.users := by simpa using huid
    have hstmt : stmtInsertEdge db e = .error .parentUnpublished := by
      rw [stmtInsertEdge]
      simp [hv1, hv2, hhist, hpe, huidm, hcp]
    refine ⟨hstmt, ?_⟩
    simp only [post_edge_event, commitEdgeTxn, runEdgeStmts, hstmt]
  · intro db e p db' hp hok
    obtain ⟨hrun, -⟩ := commitEdgeTxn_ok hok
    have hstmt := runEdgeStmts_singleton hrun
    obtain ⟨-, -, -, -, hpe, -, hcp⟩ := stmtInsertEdge_ok hstmt
    simp only [parentExistsB, hp] at hpe
    obtain ⟨nd, hlook⟩ := lookupHist_of_histExistsB hpe
    refine ⟨nd, hlook, ?_⟩
    simp only [check_parent_published, hp, hlook] at hcp
    simpa using hcp

/-- C2 witness: the theorem applied at a store holding an unpublished
node 1 and a node 2, inserting the edge 1→2. -/
theorem C2_witness :
    stmtInsertEdge dbPQ { parent := some 2, hist := 1, uid := "u", reason := "r", tstamp := 9 }
      = .error .parentUnpublished :=
  (C2_parent_unpublished.1 dbPQ
    { parent := some 2, hist := 1, uid := "u", reason := "r", tstamp := 9 }
    2 { hid := 2, pid := "doc", title := "p", published := some false }
    rfl rfl rfl (by decide) (by decide) (by decide)).1

/-- C2 counterexample: the parent node of `edgeNullPub` has a NULL
`published` flag — not `published = true` — and the edge insert commits
anyway, refuting "an edge with a non-null parent can only be committed
when its parent is published=true". -/
theorem C2_counterexample :
    edgeNullPub.parent = some 1 ∧
    lookupHist dbNullPub 1 = some nodeNullPub ∧
    nodeNullPub.published ≠ some true ∧
    post_edge_event dbNullPub edgeNullPub = .ok dbNullPubPlus := by
  refine ⟨rfl, rfl, ?_, rfl⟩
  intro hcon
  cases hcon

/-- No stored edge duplicates the (`parent`, `hist`) pair of an edge that
passed both unique-index checks. -/
theorem no_dup_of_checks {events : List EventEdge} {e : EventEdge}
    (hv1 : violatesParentHistIndex events e = false)
    (hv2 : violatesNullHistIndex events e = false) :
    ∀ a ∈ events, ¬(a.parent = e.parent ∧ a.hist = e.hist) := by
  rintro a ha ⟨hpar, hhist⟩
  cases hpm : e.parent with
  | some p =>
    rw [violatesParentHistIndex] at hv1
    simp only [hpm, Option.isSome_some, Bool.true_and, List.any_eq_false] at hv1
    have := hv1 a ha
    simp [hpar, hhist, hpm] at this
  | none =>
    rw [violatesNullHistIndex] at hv2
    simp only [hpm, Option.isNone_none, Bool.true_and, List.any_eq_false] at hv2
    have := hv2 a ha
    simp [hpar, hhist, hpm] at this

/-- C3.  Edge uniqueness: a store where no two edges agree on the
(`parent`, `hist`) pair — in particular, at most one null-parent edge per
node — keeps that property across every committed edge insert, because
`parent_hist_index` rejects non-null duplicates and `null_hist_index`
rejects null-parent duplicates; and inserting a second edge with the same
null parent and the same child `hist` as a stored edge fails with
`DuplicateEdge` (the transaction aborts, so the first edge remains the
only one stored). -/
theorem C3_edge_uniqueness :
    (∀ (db : DB) (e : EventEdge) (db' : DB),
        UniqueEdges db.events →
        post_edge_event db e = .ok db' →
        UniqueEdges db'.events)
    ∧
    (∀ (db : DB) (e1 e2 : EventEdge),
        e1 ∈ db.events → e1.parent = none → e2.parent = none → e2.hist = e1.hist →
        post_edge_event db e2 = .error .duplicateEdge) := by
  constructor
  · intro db e db' huniq hok
    obtain ⟨hrun, -⟩ := commitEdgeTxn_ok hok
    have hstmt := runEdgeStmts_singleton hrun
    obtain ⟨hdb', hv1, hv2, -, -, -, -⟩ := stmtInsertEdge_ok hstmt
    subst hdb'
    show (db.events ++ [e]).Pairwise _
    rw [List.pairwise_append]
    refine ⟨huniq, List.pairwise_singleton _ _, ?_⟩
    intro a ha b hb
    rw [List.mem_singleton] at hb
    intro hcon
    rw [hb] at hcon
    exact no_dup_of_checks hv1 hv2 a ha hcon
  · intro db e1 e2 h1 hp1 hp2 hh
    have hv2 : violatesNullHistIndex db.events e2 = true := by
      rw [violatesNullHistIndex, hp2]
      simp only [Option.isNone_none, Bool.true_and, List.any_eq_true]
      exact ⟨e1, h1, by simp [hp1, hh]⟩
    have hv1 : violatesParentHistIndex db.events e2 = false := by
      rw [violatesParentHistIndex, hp2]
      simp
    have hstmt : stmtInsertEdge db e2 = .error .duplicateEdge := by
      rw [stmtInsertEdge]
      simp [hv1, hv2]
    simp only [post_edge_event, commitEdgeTxn, runEdgeStmts, hstmt]

/-- C3 witness: the theorem applied at a store already holding the
root-creation edge of node 1 (the duplicate is rejected), and at a store
committing a fresh root-creation edge (uniqueness is preserved). -/
theorem C3_witness :
    post_edge_event dbDup edgeDup = .error .duplicateEdge ∧
    UniqueEdges dbW1plus.events :=
  ⟨C3_edge_uniqueness.2 dbDup edgeW1 edgeDup (by decide) rfl rfl rfl,
   C3_edge_uniqueness.1 dbW1 edgeW1 dbW1plus (by unfold UniqueEdges; decide) rfl⟩

/-- Unpacking the stored foreign-key invariant per edge. -/
theorem eventsFKB_spec {db : DB} (h : eventsFKB db = true) :
    ∀ e ∈ db.events, histExistsB db e.hist = true ∧ parentExistsB db e = true := by
  rw [eventsFKB, List.all_eq_true] at h
  intro e he
  simpa using h e he

/-- C4 (amended).  Under the stored foreign keys, the result of
`get_graph` is closed: every returned edge's `hist` node is in the
returned node set; its non-null parent node is in the returned node set
whenever some stored edge has that parent as its `hist` (which is the
case in every state produced by `createDocument`, where each node gets an
incoming edge); and every stored edge adjacent to a returned edge is
itself returned — traversal continues, never stopping partway.  (The
original claim is amended because the returned node set only collects the
`hist` side of the returned edges: a parent node referenced by an edge
but not the child of any edge — possible after administrative edge
deletion or `POST /node` — is absent from the result, see the
counterexample.) -/
theorem C4_get_graph_closed :
    ∀ (db : DB) (x : Nat),
      eventsFKB db = true →
      ∀ e ∈ get_graph_edges db.events x,
        (∃ nd ∈ get_graph_nodes db x, nd.hid = e.hist) ∧
        (∀ p, e.parent = some p →
          (∃ e2 ∈ db.events, e2.hist = p) →
          ∃ nd ∈ get_graph_nodes db x, nd.hid = p) ∧
        (∀ evt ∈ db.events, edgeAdj e evt = true →
          evt ∈ get_graph_edges db.events x) := by
  intro db x hfk e he
  have heEv : e ∈ db.events := get_graph_edges_subset db.events x e he
  refine ⟨?_, ?_, fun evt hevt hadj => get_graph_edges_closed db.events x e he evt hevt hadj⟩
  · have hhist := (eventsFKB_spec hfk e heEv).1
    rw [histExistsB, List.any_eq_true] at hhist
    obtain ⟨nd, hnd, hb⟩ := hhist
    have hhid : nd.hid = e.hist := by simpa using hb
    refine ⟨nd, ?_, hhid⟩
    rw [get_graph_nodes, List.mem_filter]
    exact ⟨hnd, decide_eq_true ⟨e, he, hhid.symm⟩⟩
  · intro p hp hcov
    obtain ⟨e2, he2, hh2⟩ := hcov
    have hadj : edgeAdj e e2 = true := by
      rw [edgeAdj, hp, hh2]
      simp
    have he2g : e2 ∈ get_graph_edges db.events x :=
      get_graph_edges_closed db.events x e he e2 he2 hadj
    have hpe := (eventsFKB_spec hfk e heEv).2
    simp only [parentExistsB, hp] at hpe
    rw [histExistsB, List.any_eq_true] at hpe
    obtain ⟨nd, hnd, hb⟩ := hpe
    have hhid : nd.hid = p := by simpa using hb
    refine ⟨nd, ?_, hhid⟩
    rw [get_graph_nodes, List.mem_filter]
    refine ⟨hnd, decide_eq_true ⟨e2, he2g, ?_⟩⟩
    rw [hh2, hhid]

/-- C4 witness: the theorem applied at the healthy two-node store, at the
query seed 2 and the edge 1→2: the parent node 1 — the `hist` of the
stored root edge — appears in the returned node set. -/
theorem C4_witness :
    ∃ nd ∈ get_graph_nodes dbTwo 2, nd.hid = 1 :=
  (C4_get_graph_closed dbTwo 2 (by decide)
      { parent := some 1, hist := 2, uid := "u", reason := "update", tstamp := 1 }
      (by decide)).2.1 1 rfl ⟨edgeW1, by decide, rfl⟩

/-- C4 counterexample: in `dbOrphan` node 1 exists and is referenced as
the parent of the returned edge 1→2, but no edge has 1 as its `hist`, so
`get_graph 2` returns the edge while its parent node is missing from the
returned node set — the result is not closed as originally claimed. -/
theorem C4_counterexample :
    edgeOrphan ∈ get_graph_edges dbOrphan.events 2 ∧
    edgeOrphan.parent = some 1 ∧
    histExistsB dbOrphan 1 = true ∧
    (∀ nd ∈ get_graph_nodes dbOrphan 2, nd.hid ≠ 1) := by
  refine ⟨by decide, rfl, by decide, by decide⟩

/-- Node existence survives growing the `document_hist` relation. -/
theorem histExistsB_mono {db db2 : DB} (hsub : ∀ nd ∈ db.hists, nd ∈ db2.hists)
    {h : Nat} (hh : histExistsB db h = true) : histExistsB db2 h = true := by
  rw [histExistsB, List.any_eq_true] at hh ⊢
  obtain ⟨nd, hm, hb⟩ := hh
  exact ⟨nd, hsub nd hm, hb⟩

/-- Characterisation of a successful `post_document` transaction body:
the returned id is the freshly generated one and the inserted edge
carries it, with the reason determined by the parent's nullity. -/
theorem post_document_txn_ok_shape {db : DB} {uid : String} {now : Int}
    {parent : Option Nat} {pidStr titleStr : String} {pb : Bool} {db' : DB} {h : Nat}
    (hok : post_document_txn db uid now parent pidStr titleStr pb = .ok (db', h)) :
    h = db.nextId ∧
    db'.events = db.events ++
      [{ parent := parent, hist := db.nextId, uid := uid,
         reason := if parent.isNone then "insert" else "update",
         comment := none, tstamp := now }] := by
  simp only [post_document_txn] at hok
  generalize hr : (if parent.isNone then "insert" else "update") = rsn at hok
  split at hok
  · cases hok
  · rename_i db2 hs
    split at hok
    · cases hok
    · obtain ⟨hdb2, -⟩ := stmtInsertEdge_ok hs
      cases hok
      subst hdb2
      exact ⟨rfl, rfl⟩

/-- On a store with fresh ids, sound foreign keys and a known user, a
null-parent `post_document` transaction succeeds, appending the node and
its root-creation edge and returning the generated id. -/
theorem post_document_txn_null_ok {db : DB} {uid : String} {now : Int}
    {pidStr titleStr : String} {pb : Bool}
    (hfresh : idsFreshB db = true) (hfk : eventsFKB db = true)
    (huid : db.users.contains uid = true) :
    post_document_txn db uid now none pidStr titleStr pb =
      .ok ({ hists := db.hists ++
               [{ hid := db.nextId, pid := pidStr, title := titleStr, metadata := [],
                  published := some pb, deleted := some false, tstamp := none }],
             events := db.events ++
               [{ parent := none, hist := db.nextId, uid := uid, reason := "insert",
                  comment := none, tstamp := now }],
             users := db.users, nextId := db.nextId + 1 }, db.nextId) := by
  have hnofresh : ∀ e2 ∈ db.events, (e2.hist == db.nextId) = false := by
    intro e2 he2
    have hex := (eventsFKB_spec hfk e2 he2).1
    rw [histExistsB, List.any_eq_true] at hex
    obtain ⟨nd, hnd, hb⟩ := hex
    have hfr : nd.hid < db.nextId := by
      rw [idsFreshB, List.all_eq_true] at hfresh
      simpa using hfresh nd hnd
    have hne : e2.hist ≠ db.nextId := by
      have : nd.hid = e2.hist := by simpa using hb
      omega
    simp [hne]
  simp only [post_document_txn, Option.isNone_none, if_true]
  have hstmt := @stmtInsertEdge_ok_of
    { db with
      hists := db.hists ++
        [{ hid := db.nextId, pid := pidStr, title := titleStr, metadata := [],
           published := some pb, deleted := some false, tstamp := none }],
      nextId := db.nextId + 1 }
    { parent := none, hist := db.nextId, uid := uid, reason := "insert",
      comment := none, tstamp := now }
    (by simp [violatesParentHistIndex])
    (by rw [violatesNullHistIndex]
        simp only [Option.isNone_none, Bool.true_and]
        rw [List.any_eq_false]
        intro e2 he2
        simp [hnofresh e2 he2])
    (by rw [histExistsB, List.any_eq_true]
        exact ⟨_, List.mem_append_right _ (List.mem_singleton_self _), by simp⟩)
    (by rfl)
    (by simpa using huid)
    (by rfl)
  rw [hstmt]
  simp [check_document_cycle]

/-- Appending a freshly generated node together with a root-creation edge
for it preserves id freshness and the stored foreign keys. -/
theorem wf_after_insert {db db2 : DB} {node : HistNode} {edge : EventEdge}
    (hh : db2.hists = db.hists ++ [node])
    (he : db2.events = db.events ++ [edge])
    (hn : db2.nextId = db.nextId + 1)
    (hnode : node.hid = db.nextId)
    (hedge : edge.hist = db.nextId) (hepar : edge.parent = none)
    (hfresh : idsFreshB db = true) (hfk : eventsFKB db = true) :
    idsFreshB db2 = true ∧ eventsFKB db2 = true := by
  have hmono : ∀ nd ∈ db.hists, nd ∈ db2.hists := by
    intro nd hnd
    rw [hh]
    exact List.mem_append_left _ hnd
  have hnode2 : node ∈ db2.hists := by
    rw [hh]
    exact List.mem_append_right _ (List.mem_singleton_self _)
  constructor
  · rw [idsFreshB, List.all_eq_true]
    intro nd hnd
    rw [hh] at hnd
    rcases List.mem_append.mp hnd with hmem | hmem
    · rw [idsFreshB, List.all_eq_true] at hfresh
      have := hfresh nd hmem
      simp only [decide_eq_true_eq] at this ⊢
      omega
    · rw [List.mem_singleton] at hmem
      subst hmem
      simp only [decide_eq_true_eq, hnode, hn]
      omega
  · rw [eventsFKB, List.all_eq_true]
    intro e he2
    rw [he] at he2
    rcases List.mem_append.mp he2 with hmem | hmem
    · obtain ⟨hhist, hpar⟩ := eventsFKB_spec hfk e hmem
      have hhist2 : histExistsB db2 e.hist = true := histExistsB_mono hmono hhist
      have hpar2 : parentExistsB db2 e = true := by
        cases hpm : e.parent with
        | none => simp [parentExistsB, hpm]
        | some p =>
          simp only [parentExistsB, hpm] at hpar ⊢
          exact histExistsB_mono hmono hpar
      simp [hhist2, hpar2]
    · rw [List.mem_singleton] at hmem
      subst hmem
      have hhist2 : histExistsB db2 e.hist = true := by
        rw [histExistsB, List.any_eq_true]
        exact ⟨node, hnode2, by simp [hnode, hedge]⟩
      have hpar2 : parentExistsB db2 e = true := by
        simp [parentExistsB, hepar]
      simp [hhist2, hpar2]

/-- C5.  `createDocument` with a null parent and a valid payload always
inserts, in one transaction, a new node (with a NULL content timestamp)
plus a null-parent edge whose reason is `insert`; the identifier is
generated server-side, so issuing the exact same call twice yields two
distinct node ids — the operation is not idempotent.  When a parent id is
supplied, any successful call records its edge with reason `update`. -/
theorem C5_createDocument_not_idempotent :
    ∀ (db : DB) (uid : String) (now : Int) (payload : DocPayload)
      (pidStr titleStr : String),
      idsFreshB db = true → eventsFKB db = true → db.users.contains uid = true →
      payload.pid = some (JVal.str pidStr) →
      payload.title = some (JVal.str titleStr) →
      (payload.published = none ∨ ∃ b, payload.published = some (JVal.bool b)) →
      (∃ db1 h1 db2 h2,
        post_document db uid now none payload = .ok (db1, h1) ∧
        post_document db1 uid now none payload = .ok (db2, h2) ∧
        h1 ≠ h2 ∧
        ({ parent := none, hist := h1, uid := uid, reason := "insert",
           comment := none, tstamp := now } : EventEdge) ∈ db1.events ∧
        (∃ nd ∈ db1.hists, nd.hid = h1 ∧ nd.pid = pidStr ∧ nd.title = titleStr ∧
          nd.tstamp = none))
      ∧
      (∀ (p : Nat) (db1 : DB) (h1 : Nat),
        post_document db uid now (some p) payload = .ok (db1, h1) →
        ({ parent := some p, hist := h1, uid := uid, reason := "update",
           comment := none, tstamp := now } : EventEdge) ∈ db1.events) := by
  intro db uid now payload pidStr titleStr hfresh hfk huid hpid htitle hpub
  obtain ⟨pb, hred⟩ : ∃ pb, ∀ (dbx : DB) (par : Option Nat),
      post_document dbx uid now par payload =
        post_document_txn dbx uid now par pidStr titleStr pb := by
    rcases hpub with hc | ⟨b, hc⟩
    · exact ⟨false, fun dbx par => by simp only [post_document, hpid, htitle, hc]⟩
    · exact ⟨b, fun dbx par => by simp only [post_document, hpid, htitle, hc]⟩
  constructor
  · have hcall1 : post_document db uid now none payload =
        .ok ({ hists := db.hists ++
                 [{ hid := db.nextId, pid := pidStr, title := titleStr, metadata := [],
                    published := some pb, deleted := some false, tstamp := none }],
               events := db.events ++
                 [{ parent := none, hist := db.nextId, uid := uid, reason := "insert",
                    comment := none, tstamp := now }],
               users := db.users, nextId := db.nextId + 1 }, db.nextId) := by
      rw [hred db none]
      exact post_document_txn_null_ok hfresh hfk huid
    have hwf := @wf_after_insert db
      { hists := db.hists ++
          [{ hid := db.nextId, pid := pidStr, title := titleStr, metadata := [],
             published := some pb, deleted := some false, tstamp := none }],
        events := db.events ++
          [{ parent := none, hist := db.nextId, uid := uid, reason := "insert",
             comment := none, tstamp := now }],
        users := db.users, nextId := db.nextId + 1 }
      _ _ rfl rfl rfl rfl rfl rfl hfresh hfk
    have hcall2 := (hred _ none).trans (post_document_txn_null_ok hwf.1 hwf.2 huid)
    refine ⟨_, _, _, _, hcall1, hcall2, ?_, ?_, ?_⟩
    · show db.nextId ≠ db.nextId + 1
      omega
    · exact List.mem_append_right _ (List.mem_singleton_self _)
    · exact ⟨{ hid := db.nextId, pid := pidStr, title := titleStr, metadata := [],
               published := some pb, deleted := some false, tstamp := none },
             List.mem_append_right _ (List.mem_singleton_self _), rfl, rfl, rfl, rfl⟩
  · intro p db1 h1 hok
    rw [hred db (some p)] at hok
    obtain ⟨hh, hev⟩ := post_document_txn_ok_shape hok
    rw [hev, hh]
    apply List.mem_append_right
    exact List.mem_singleton_self _

/-- C5 witness: the theorem applied at the empty store with one user and
the payload `pid=doc1, title=t`. -/
theorem C5_witness :
    ∃ db1 h1 db2 h2,
      post_document dbEmptyU "u" 0 none payloadW = .ok (db1, h1) ∧
      post_document db1 "u" 0 none payloadW = .ok (db2, h2) ∧
      h1 ≠ h2 ∧
      ({ parent := none, hist := h1, uid := "u", reason := "insert",
         comment := none, tstamp := 0 } : EventEdge) ∈ db1.events ∧
      (∃ nd ∈ db1.hists, nd.hid = h1 ∧ nd.pid = "doc1" ∧ nd.title = "t" ∧
        nd.tstamp = none) :=
  (C5_createDocument_not_idempotent dbEmptyU "u" 0 payloadW "doc1" "t"
    (by decide) (by decide) (by decide) rfl rfl (Or.inl rfl)).1

/-- C6 (amended).  The refresh route decrypts the presented token
ignoring expiry and answers 401 whenever the time elapsed since the
token's original `nbf` claim exceeds the 30-day session window, however
well-formed and unexpired the token is.  Within the window it reissues a
fresh token whose `nbf` equals the original one — so repeated refreshes
never extend the session window — provided re-authentication against the
identity provider with the credentials embedded in the token still
succeeds (the handler re-runs `authenticate`, a step the original claim
omits; see the counterexample) and the original `nbf` is a positive
timestamp (a zero `nbf` is falsy in `nbf or now` and would be replaced by
the current time). -/
theorem C6_refresh_session_window :
    (∀ (ldap : String → String → LdapResult) (c : ClaimsMap) (now b : Int),
        c.sub.isSome = true → c.exp.isSome = true → c.nbf = some b →
        b ≤ now → session_duration < now - b →
        get_handler ldap (some (.payload c)) now = .unauthorized (some "invalid_token"))
    ∧
    (∀ (ldap : String → String → LdapResult) (c : ClaimsMap) (now b : Int)
        (u pw cn : String),
        c.sub = some (JVal.str u) → c.p = some (JVal.str pw) →
        c.exp.isSome = true → c.nbf = some b →
        0 < b → b ≤ now → now - b ≤ session_duration →
        ldap u pw = .found cn →
        ∃ c', get_handler ldap (some (.payload c)) now = .tokenOk c' token_duration ∧
          c'.nbf = some b ∧ c'.sub = some (JVal.str u)) := by
  constructor
  · intro ldap c now b hsub hexp hnbf hb hw
    obtain ⟨sv, hsv⟩ := Option.isSome_iff_exists.mp hsub
    obtain ⟨ev, hev⟩ := Option.isSome_iff_exists.mp hexp
    have hdec : JWEConverter.decrypt (.payload c) now false = .ok c := by
      rw [JWEConverter.decrypt]
      simp [hsv, hev, hnbf, not_lt.mpr hb]
    simp only [get_handler, hdec, hnbf]
    rw [if_pos hw]
  · intro ldap c now b u pw cn hsub hp hexp hnbf hbpos hb hw hldap
    obtain ⟨ev, hev⟩ := Option.isSome_iff_exists.mp hexp
    have hdec : JWEConverter.decrypt (.payload c) now false = .ok c := by
      rw [JWEConverter.decrypt]
      simp [hsub, hev, hnbf, not_lt.mpr hb]
    have hne : ¬ session_duration < now - b := not_lt.mpr hw
    have hbne : b ≠ 0 := by omega
    refine ⟨create_jwe { role := "admin", name := cn } (JVal.str u) (JVal.str pw) now (some b),
      ?_, ?_, ?_⟩
    · simp only [get_handler, hdec, hnbf]
      rw [if_neg hne]
      simp only [hp, hsub, Option.getD_some, create_response, gd_authenticate, hldap]
    · simp [create_jwe, JWEConverter.encrypt, pyOrInt, hbne]
    · simp [create_jwe, JWEConverter.encrypt]

/-- C6 witness: the theorem applied at the concrete refresh token
`cRefresh` — within the window a fresh token with the original `nbf` is
issued (against an accepting identity provider), and 31 days after the
original `nbf` the refresh is refused. -/
theorem C6_witness :
    (∃ c', get_handler (fun _ _ => LdapResult.found "cn")
        (some (.payload cRefresh)) 1000100 = .tokenOk c' token_duration ∧
        c'.nbf = some 1000000 ∧ c'.sub = some (JVal.str "u")) ∧
    get_handler (fun _ _ => LdapResult.found "cn")
        (some (.payload cRefresh)) 3678400 = .unauthorized (some "invalid_token") :=
  ⟨C6_refresh_session_window.2 (fun _ _ => LdapResult.found "cn") cRefresh 1000100 1000000
      "u" "pw" "cn" rfl rfl rfl rfl (by decide) (by decide) (by decide) rfl,
   C6_refresh_session_window.1 (fun _ _ => LdapResult.found "cn") cRefresh 3678400 1000000
      rfl rfl rfl (by decide) (by decide)⟩

/-- C6 counterexample: the token `cRefresh` is well-formed, its session
window has not elapsed at time 1000100, yet the refresh route answers 401
instead of issuing a fresh token, because it re-authenticates with the
credentials stored in the token and the identity provider rejects them —
refuting "when the window has not elapsed, it issues a fresh token". -/
theorem C6_counterexample :
    ((1000100 : Int) - 1000000 ≤ session_duration) ∧
    cRefresh.nbf = some 1000000 ∧
    JWEConverter.decrypt (.payload cRefresh) 1000100 false = .ok cRefresh ∧
    get_handler ldapReject (some (.payload cRefresh)) 1000100 = .unauthorized none := by
  exact ⟨by decide, rfl, rfl, rfl⟩

/-- C7 (amended).  The two user-distinguishing identity-provider
failures — wrong password (`LDAPInvalidCredentials`) and user not found
(`LDAPUserNotFound`) — are collapsed by `authenticate` into the single
`AuthError`, so the authentication route answers the same bare 401 for
both and a client cannot tell them apart.  An admin-bind or connectivity
failure (`LDAPInvalidAdminCredentials`), however, is not among the caught
exceptions and escapes as an internal server error, distinguishable from
the 401 — which is why the original three-way collapsing claim fails. -/
theorem C7_auth_failure_collapsing :
    (∀ (r1 r2 : LdapResult) (u1 p1 u2 p2 : String) (now1 now2 : Int),
        (r1 = .userNotFound ∨ r1 = .invalidCredentials) →
        (r2 = .userNotFound ∨ r2 = .invalidCredentials) →
        post_handler (fun _ _ => r1) (.str u1) (.str p1) now1
          = post_handler (fun _ _ => r2) (.str u2) (.str p2) now2 ∧
        post_handler (fun _ _ => r1) (.str u1) (.str p1) now1 = .unauthorized none)
    ∧
    (∀ (u p : String) (now : Int),
        post_handler (fun _ _ => LdapResult.adminBindFailed) (.str u) (.str p) now
          = .serverError ∧
        (HandlerResult.serverError ≠ HandlerResult.unauthorized none)) := by
  constructor
  · intro r1 r2 u1 p1 u2 p2 now1 now2 h1 h2
    rcases h1 with h1 | h1 <;> rcases h2 with h2 | h2 <;> subst h1 <;> subst h2 <;>
      exact ⟨rfl, rfl⟩
  · intro u p now
    refine ⟨rfl, ?_⟩
    intro hcon
    cases hcon

/-- C7 witness: the theorem applied at a user-not-found attempt and a
wrong-password attempt — both answers are the same bare 401. -/
theorem C7_witness :
    post_handler (fun _ _ => LdapResult.userNotFound) (.str "alice") (.str "a") 1
      = post_handler (fun _ _ => LdapResult.invalidCredentials) (.str "bob") (.str "b") 2 ∧
    post_handler (fun _ _ => LdapResult.userNotFound) (.str "alice") (.str "a") 1
      = .unauthorized none :=
  C7_auth_failure_collapsing.1 LdapResult.userNotFound LdapResult.invalidCredentials
    "alice" "a" "bob" "b" 1 2 (Or.inl rfl) (Or.inr rfl)

/-- C7 counterexample: a wrong-password attempt answers the collapsed
401, but an admin-bind failure answers an internal server error — the two
failing attempts produce different external responses, refuting the
original claim that all identity-provider failure causes are collapsed. -/
theorem C7_counterexample :
    post_handler ldapReject (.str "a") (.str "x") 0 = .unauthorized none ∧
    post_handler (fun _ _ => LdapResult.adminBindFailed) (.str "a") (.str "x") 0
      = .serverError ∧
    post_handler ldapReject (.str "a") (.str "x") 0 ≠
      post_handler (fun _ _ => LdapResult.adminBindFailed) (.str "a") (.str "x") 0 := by
  refine ⟨rfl, rfl, ?_⟩
  intro hcon
  rw [show post_handler ldapReject (.str "a") (.str "x") 0 = .unauthorized none from rfl]
    at hcon
  rw [show post_handler (fun _ _ => LdapResult.adminBindFailed) (.str "a") (.str "x") 0
      = .serverError from rfl] at hcon
  cases hcon

/-- C8 (amended).  A token carrying all required claims whose `exp` lies
before the current time and whose `nbf` does not lie after it fails with
`TokenExpired` when decrypted with `check_expiry = true`, while the same
token decrypted with `check_expiry = false` succeeds and returns the
stored claims mapping.  (The original unconditional claim fails for
tokens with a missing required claim or a future `nbf`: those checks run
regardless of `check_expiry` — see the counterexample.) -/
theorem C8_decrypt_expiry :
    ∀ (c : ClaimsMap) (now ev b : Int),
      c.sub.isSome = true → c.exp = some ev → c.nbf = some b →
      ev < now → b ≤ now →
      JWEConverter.decrypt (.payload c) now true = .error .jweExpired ∧
      JWEConverter.decrypt (.payload c) now false = .ok c := by
  intro c now ev b hsub hexp hnbf he hb
  obtain ⟨sv, hsv⟩ := Option.isSome_iff_exists.mp hsub
  constructor
  · rw [JWEConverter.decrypt]
    simp [hsv, hexp, hnbf, he]
  · rw [JWEConverter.decrypt]
    simp [hsv, hexp, hnbf, not_lt.mpr hb]

/-- C8 witness: the theorem applied at the token `cRefresh` at a time
past its expiry. -/
theorem C8_witness :
    JWEConverter.decrypt (.payload cRefresh) 2000000 true = .error .jweExpired ∧
    JWEConverter.decrypt (.payload cRefresh) 2000000 false = .ok cRefresh :=
  C8_decrypt_expiry cRefresh 2000000 1000300 1000000 rfl rfl rfl (by decide) (by decide)

/-- C8 counterexample: the token `cBadNbf` has its expiry claim (5)
before the current time (50), and decryption with `check_expiry = true`
fails `TokenExpired`; but decryption with `check_expiry = false` does not
succeed — it fails `TokenNotYetValid` because the `nbf` check runs
regardless — refuting the unconditional claim. -/
theorem C8_counterexample :
    cBadNbf.exp = some 5 ∧ ((5 : Int) < 50) ∧
    JWEConverter.decrypt (.payload cBadNbf) 50 true = .error .jweExpired ∧
    JWEConverter.decrypt (.payload cBadNbf) 50 false = .error .jweNotYetValid ∧
    JWEConverter.decrypt (.payload cBadNbf) 50 false ≠ .ok cBadNbf := by
  refine ⟨rfl, by decide, rfl, rfl, ?_⟩
  intro hcon
  rw [show JWEConverter.decrypt (.payload cBadNbf) 50 false = .error .jweNotYetValid
      from rfl] at hcon
  cases hcon

/-- The counter of the counting insert can be split off: folding from
counter `c` equals folding from zero with `c` added. -/
theorem insertRows_shift (rows : List SnapRow) :
    ∀ (db : List SnapRow) (c : Nat),
      rows.foldl
        (fun acc row =>
          if acc.1.any (fun r0 => sameKey r0 row) then acc
          else (acc.1 ++ [row], acc.2 + 1)) (db, c) =
      ((insertRows db rows).1, c + (insertRows db rows).2) := by
  induction rows with
  | nil => intro db c; simp [insertRows]
  | cons r rest ih =>
    intro db c
    rw [insertRows, List.foldl_cons, List.foldl_cons]
    by_cases hany : (db.any fun r0 => sameKey r0 r) = true
    · rw [if_pos hany, if_pos hany, ih db c, ih db 0]
      simp [insertRows]
    · rw [if_neg hany, if_neg hany, ih (db ++ [r]) (c + 1), ih (db ++ [r]) 1]
      have := ih (db ++ [r]) 0
      refine Prod.ext rfl ?_
      simp [insertRows]
      omega

/-- One step of the counting insert. -/
theorem insertRows_cons (db : List SnapRow) (r : SnapRow) (rest : List SnapRow) :
    insertRows db (r :: rest) =
      if (db.any fun r0 => sameKey r0 r) = true then insertRows db rest
      else ((insertRows (db ++ [r]) rest).1, (insertRows (db ++ [r]) rest).2 + 1) := by
  rw [insertRows, List.foldl_cons]
  by_cases hany : (db.any fun r0 => sameKey r0 r) = true
  · rw [if_pos hany, if_pos hany]
    rw [show (insertRows db rest) = rest.foldl _ (db, 0) from rfl]
  · rw [if_neg hany, if_neg hany]
    rw [insertRows_shift rest (db ++ [r]) 1]
    refine Prod.ext rfl ?_
    simp
    omega

/-- The returned count is exactly the number of rows actually written. -/
theorem insertRows_length : ∀ (rows db : List SnapRow),
    (insertRows db rows).1.length = db.length + (insertRows db rows).2 := by
  intro rows
  induction rows with
  | nil => intro db; simp [insertRows]
  | cons r rest ih =>
    intro db
    rw [insertRows_cons]
    by_cases hany : (db.any fun r0 => sameKey r0 r) = true
    · rw [if_pos hany]
      exact ih db
    · rw [if_neg hany]
      have := ih (db ++ [r])
      simp only [List.length_append, List.length_singleton] at this
      simp only []
      omega

/-- Rows with pairwise fresh keys, all new to the table, are all written. -/
theorem insertRows_fresh : ∀ (rows db : List SnapRow),
    rows.Pairwise (fun a b => sameKey a b = false) →
    (∀ r ∈ rows, ∀ r0 ∈ db, sameKey r0 r = false) →
    insertRows db rows = (db ++ rows, rows.length) := by
  intro rows
  induction rows with
  | nil => intro db _ _; simp [insertRows]
  | cons r rest ih =>
    intro db hpw hnew
    have hany : (db.any fun r0 => sameKey r0 r) = false := by
      rw [List.any_eq_false]
      intro r0 hr0
      simp [hnew r (List.mem_cons_self r rest) r0 hr0]
    rw [insertRows_cons, if_neg (by simp [hany])]
    rw [List.pairwise_cons] at hpw
    have hrest := ih (db ++ [r]) hpw.2 ?_
    · rw [hrest]
      refine Prod.ext ?_ ?_
      · simp
      · simp
    · intro r2 hr2 r0 hr0
      rcases List.mem_append.mp hr0 with hr0 | hr0
      · exact hnew r2 (List.mem_cons_of_mem r hr2) r0 hr0
      · rw [List.mem_singleton] at hr0
        subst hr0
        exact hpw.1 r2 hr2

/-- Rows whose keys are all already present are all skipped. -/
theorem insertRows_dup : ∀ (rows db : List SnapRow),
    (∀ r ∈ rows, ∃ r0 ∈ db, sameKey r0 r = true) →
    insertRows db rows = (db, 0) := by
  intro rows
  induction rows with
  | nil => intro db _; simp [insertRows]
  | cons r rest ih =>
    intro db hdup
    have hany : (db.any fun r0 => sameKey r0 r) = true := by
      rw [List.any_eq_true]
      obtain ⟨r0, hr0, hk⟩ := hdup r (List.mem_cons_self r rest)
      exact ⟨r0, hr0, hk⟩
    rw [insertRows_cons, if_pos hany]
    exact ih db (fun r2 hr2 => hdup r2 (List.mem_cons_of_mem r hr2))

/-- On a body of well-formed uid-free object lines, the parsing loop
collects exactly one pending row per line, in order. -/
theorem collectRows_valid : ∀ (body : List SnapLine),
    (∀ l ∈ body, ∃ d s t, l = SnapLine.obj false d s t) →
    collectRows body = .ok (body.map pendingOf) := by
  intro body
  induction body with
  | nil => intro _; rfl
  | cons l rest ih =>
    intro hvalid
    obtain ⟨d, s, t, hl⟩ := hvalid l (List.mem_cons_self l rest)
    subst hl
    rw [List.map_cons, collectRows, if_neg (by simp)]
    rw [ih (fun x hx => hvalid x (List.mem_cons_of_mem _ hx))]
    rfl

/-- Reduction of the batch handler on a body whose parsing loop
succeeds with rows that pass the NOT NULL checks. -/
theorem post_snapshot_batch_ok {db : List SnapRow} {body : List SnapLine} {uid : String}
    {now : Int} {prs : List PendingRow}
    (hcr : collectRows body = .ok prs)
    (hnn : (prs.any fun pr => pr.data.isNone || pr.source.isNone) = false)
    (hne : prs.isEmpty = false) :
    post_snapshot_batch db body uid now =
      .inserted (insertRows db (prs.map (toSnapRow uid now))).1
        (insertRows db (prs.map (toSnapRow uid now))).2 := by
  simp only [post_snapshot_batch, hcr]
  rw [if_neg (by simp [hnn]), if_neg (by simp [hne])]

/-- C9 (amended).  The returned count of `ingestBatch` always equals the
number of rows actually inserted.  A batch of pairwise-distinct valid
lines, each carrying an explicit `tstamp` and none colliding with a
stored row, inserts one row per line and returns its count; the exact
same batch resubmitted later (at any other time) inserts nothing and
returns count 0 — duplicates identified by the (`data`, `source`,
`tstamp`) content key are silently skipped.  (The original claim is
amended by requiring an explicit `tstamp` per line: a line without one
receives each submission's own server timestamp, so its resubmission has
a fresh content key and is inserted again — see the counterexample.) -/
theorem C9_ingest_batch_idempotent :
    (∀ (db : List SnapRow) (body : List SnapLine) (uid : String) (now : Int)
        (db' : List SnapRow) (c : Nat),
        post_snapshot_batch db body uid now = .inserted db' c →
        db'.length = db.length + c)
    ∧
    (∀ (db : List SnapRow) (body : List SnapLine) (uid : String) (now now2 : Int),
        (∀ l ∈ body, ∃ d s t, l = SnapLine.obj false (some d) (some s) (some t)) →
        body.Pairwise (fun l1 l2 => l1 ≠ l2) →
        (∀ d s t, SnapLine.obj false (some d) (some s) (some t) ∈ body →
          ∀ r0 ∈ db, sameKey r0 { data := d, source := s, tstamp := t, uid := uid } = false) →
        ∃ db1, post_snapshot_batch db body uid now = .inserted db1 body.length ∧
          post_snapshot_batch db1 body uid now2 = .inserted db1 0) := by
  constructor
  · intro db body uid now db' c h
    simp only [post_snapshot_batch] at h
    split at h
    · cases h
    · cases h
    · split_ifs at h with h1 h2
      all_goals cases h
      all_goals first
        | exact insertRows_length _ _
        | simp
  · intro db body uid now now2 hvalid hnodup hfresh
    have hcr : collectRows body = .ok (body.map pendingOf) :=
      collectRows_valid body (fun l hl => by
        obtain ⟨d, s, t, hl'⟩ := hvalid l hl
        exact ⟨some d, some s, some t, hl'⟩)
    have hnn : ((body.map pendingOf).any fun pr => pr.data.isNone || pr.source.isNone)
        = false := by
      rw [List.any_eq_false]
      intro pr hpr
      rw [List.mem_map] at hpr
      obtain ⟨l, hl, hpl⟩ := hpr
      obtain ⟨d, s, t, hl'⟩ := hvalid l hl
      subst hl'
      subst hpl
      simp [pendingOf]
    have hrowseq : (body.map pendingOf).map (toSnapRow uid now2)
        = (body.map pendingOf).map (toSnapRow uid now) := by
      rw [List.map_map, List.map_map]
      apply List.map_congr_left
      intro l hl
      obtain ⟨d, s, t, hl'⟩ := hvalid l hl
      subst hl'
      rfl
    by_cases hbe : body = []
    · subst hbe
      exact ⟨db, rfl, rfl⟩
    obtain ⟨hd, tl, hbody⟩ := List.exists_cons_of_ne_nil hbe
    subst hbody
    have hkeys : (((hd :: tl).map pendingOf).map (toSnapRow uid now)).Pairwise
        (fun a b => sameKey a b = false) := by
      rw [List.map_map, List.pairwise_map]
      refine hnodup.imp_of_mem ?_
      intro l1 l2 hl1 hl2 hne
      obtain ⟨d1, s1, t1, h1⟩ := hvalid l1 hl1
      obtain ⟨d2, s2, t2, h2⟩ := hvalid l2 hl2
      subst h1
      subst h2
      rw [sameKey, decide_eq_false_iff_not]
      rintro ⟨hda, hsa, hta⟩
      simp only [Function.comp_apply, pendingOf, toSnapRow, Option.getD_some] at hda hsa hta
      apply hne
      rw [hda, hsa, hta]
    have hnew : ∀ r ∈ ((hd :: tl).map pendingOf).map (toSnapRow uid now),
        ∀ r0 ∈ db, sameKey r0 r = false := by
      intro r hr r0 hr0
      rw [List.map_map, List.mem_map] at hr
      obtain ⟨l, hl, hrl⟩ := hr
      obtain ⟨d, s, t, hl'⟩ := hvalid l hl
      subst hl'
      subst hrl
      exact hfresh d s t hl r0 hr0
    have hins1 := insertRows_fresh (((hd :: tl).map pendingOf).map (toSnapRow uid now))
      db hkeys hnew
    have hc1 : post_snapshot_batch db (hd :: tl) uid now =
        .inserted (db ++ ((hd :: tl).map pendingOf).map (toSnapRow uid now))
          (hd :: tl).length := by
      rw [post_snapshot_batch_ok hcr hnn rfl, hins1]
      simp
    have hdup : ∀ r ∈ ((hd :: tl).map pendingOf).map (toSnapRow uid now2),
        ∃ r0 ∈ db ++ ((hd :: tl).map pendingOf).map (toSnapRow uid now),
          sameKey r0 r = true := by
      intro r hr
      rw [hrowseq] at hr
      exact ⟨r, List.mem_append_right _ hr, by simp [sameKey]⟩
    have hins2 := insertRows_dup (((hd :: tl).map pendingOf).map (toSnapRow uid now2))
      (db ++ ((hd :: tl).map pendingOf).map (toSnapRow uid now)) hdup
    have hc2 : post_snapshot_batch
        (db ++ ((hd :: tl).map pendingOf).map (toSnapRow uid now)) (hd :: tl) uid now2 =
        .inserted (db ++ ((hd :: tl).map pendingOf).map (toSnapRow uid now)) 0 := by
      rw [post_snapshot_batch_ok hcr hnn rfl, hins2]
    exact ⟨db ++ ((hd :: tl).map pendingOf).map (toSnapRow uid now), hc1, hc2⟩

/-- C9 witness: the theorem applied at a singleton batch with an explicit
`tstamp` over the empty table — the first submission inserts one row, the
resubmission at a later time inserts nothing. -/
theorem C9_witness :
    ∃ db1, post_snapshot_batch []
        [SnapLine.obj false (some (JVal.str "d")) (some "s") (some 3)] "u" 10
        = .inserted db1 1 ∧
      post_snapshot_batch db1
        [SnapLine.obj false (some (JVal.str "d")) (some "s") (some 3)] "u" 20
        = .inserted db1 0 :=
  C9_ingest_batch_idempotent.2 []
    [SnapLine.obj false (some (JVal.str "d")) (some "s") (some 3)] "u" 10 20
    (by
      intro l hl
      rw [List.mem_singleton] at hl
      subst hl
      exact ⟨JVal.str "d", "s", 3, rfl⟩)
    (List.pairwise_singleton _ _)
    (by
      intro d s t _ r0 hr0
      cases hr0)

/-- C9 counterexample: a valid line without a `tstamp` is inserted with
the server time of each submission, so resubmitting the identical payload
inserts a second row and returns count 1, not 0 — `ingestBatch` is not
idempotent for such lines. -/
theorem C9_counterexample :
    post_snapshot_batch [] [lineNoT] "u" 10 = .inserted [rowT10] 1 ∧
    post_snapshot_batch [rowT10] [lineNoT] "u" 20 = .inserted [rowT10, rowT20] 1 ∧
    (1 : Nat) ≠ 0 := by
  exact ⟨rfl, rfl, by decide⟩

/-- The parsing loop hits the first uid-carrying line when no earlier
line is malformed. -/
theorem collectRows_uid_first : ∀ (pre : List SnapLine) (rest : List SnapLine)
    (d : Option JVal) (s : Option String) (t : Option Int),
    (∀ x ∈ pre, x ≠ SnapLine.malformed) →
    collectRows (pre ++ SnapLine.obj true d s t :: rest) = .error .lineHasUid := by
  intro pre
  induction pre with
  | nil => intro rest d s t _; rfl
  | cons x pre' ih =>
    intro rest d s t hpre
    cases x with
    | empty =>
      rw [List.cons_append, collectRows]
      exact ih rest d s t (fun y hy => hpre y (List.mem_cons_of_mem _ hy))
    | malformed => exact absurd rfl (hpre _ (List.mem_cons_self _ _))
    | obj hU d2 s2 t2 =>
      cases hU with
      | true => rfl
      | false =>
        rw [List.cons_append, collectRows, if_neg (by simp)]
        rw [ih rest d s t (fun y hy => hpre y (List.mem_cons_of_mem _ hy))]
        rfl

/-- Whenever some line carries `uid`, the parsing loop errors out — with
`lineHasUid` or, if a malformed line comes first, with `lineMalformed` —
and never reaches the insert. -/
theorem collectRows_uid_any : ∀ (body : List SnapLine),
    (∃ l ∈ body, ∃ d s t, l = SnapLine.obj true d s t) →
    collectRows body = .error .lineHasUid ∨ collectRows body = .error .lineMalformed := by
  intro body
  induction body with
  | nil =>
    rintro ⟨l, hl, -⟩
    cases hl
  | cons x rest ih =>
    rintro ⟨l, hl, d, s, t, hlu⟩
    rcases List.mem_cons.mp hl with hx | hx
    · subst hx
      subst hlu
      left
      rfl
    · cases x with
      | empty =>
        rw [collectRows]
        exact ih ⟨l, hx, d, s, t, hlu⟩
      | malformed =>
        right
        rfl
      | obj hU d2 s2 t2 =>
        cases hU with
        | true => left; rfl
        | false =>
          rw [collectRows, if_neg (by simp)]
          rcases ih ⟨l, hx, d, s, t, hlu⟩ with hcr | hcr <;> rw [hcr]
          · left; rfl
          · right; rfl

/-- C10 (amended).  When some non-empty line of a batch carries a `uid`
key, no snapshot row is inserted at all — every line is parsed and
validated before the single insert statement is issued; and the handler
returns the `InvalidSnapshot` error provided no malformed line precedes
that line (a malformed line raises out of the handler first, turning the
response into a 500 instead — see the counterexample — but still without
inserting anything). -/
theorem C10_batch_uid_atomic :
    (∀ (db : List SnapRow) (pre rest : List SnapLine) (d : Option JVal)
        (s : Option String) (t : Option Int) (uid : String) (now : Int),
        (∀ x ∈ pre, x ≠ SnapLine.malformed) →
        post_snapshot_batch db (pre ++ SnapLine.obj true d s t :: rest) uid now
          = .invalidSnapshot)
    ∧
    (∀ (db : List SnapRow) (body : List SnapLine) (uid : String) (now : Int),
        (∃ l ∈ body, ∃ d s t, l = SnapLine.obj true d s t) →
        ∀ (db' : List SnapRow) (c : Nat),
          post_snapshot_batch db body uid now ≠ .inserted db' c) := by
  constructor
  · intro db pre rest d s t uid now hpre
    have hcr := collectRows_uid_first pre rest d s t hpre
    simp only [post_snapshot_batch, hcr]
  · intro db body uid now hex db' c h
    rcases collectRows_uid_any body hex with hcr | hcr <;>
      simp only [post_snapshot_batch, hcr] at h <;> cases h

/-- C10 witness: the theorem applied at a batch whose second line carries
`uid` after a blank line — the handler rejects the whole batch with
`InvalidSnapshot`. -/
theorem C10_witness :
    post_snapshot_batch [] [SnapLine.empty, SnapLine.obj true none none none] "u" 0
      = .invalidSnapshot :=
  C10_batch_uid_atomic.1 [] [SnapLine.empty] [] none none none "u" 0 (by decide)

/-- C10 counterexample: a batch whose first line is malformed and whose
second line carries `uid` raises out of the handler (HTTP 500) instead of
returning the `InvalidSnapshot` error — though still nothing is
inserted — refuting the unconditional 400 claim. -/
theorem C10_counterexample :
    post_snapshot_batch [] [SnapLine.malformed, SnapLine.obj true none none none] "u" 0
      = .parseError ∧
    post_snapshot_batch [] [SnapLine.malformed, SnapLine.obj true none none none] "u" 0
      ≠ .invalidSnapshot := by
  refine ⟨rfl, ?_⟩
  intro hcon
  rw [show post_snapshot_batch [] [SnapLine.malformed, SnapLine.obj true none none none]
      "u" 0 = .parseError from rfl] at hcon
  cases hcon
